import Mathlib

set_option maxHeartbeats 1000000

/-!
Shallow embedding of the EduTest quiz engine (`edubot/logic.py`).

The quiz session core is embedded as pure Lean functions over explicit state:
`context.user_data` becomes the `UserData` structure, Telegram replies become an
append-only `outs` log, and the `db.finish_session` / `db.add_points` calls
become an append-only `events` log.  `random.shuffle` is modelled as an
explicit permutation oracle passed in as a function argument, and
`datetime.utcnow()` as an explicit `now : Int` argument (seconds).  Python
strings that undergo character-level processing (the match-answer text) are
modelled as `List Char`; strings that are only compared for equality stay
`String`.
-/

/-- Python `x or default` for an optional string: both `None` and `""` are
falsy, so they are replaced by the default. -/
def pyOr (o : Option String) (d : String) : String :=
  match o with
  | none => d
  | some s => if s = "" then d else s

/-- Python `list.index(a)`, which raises `ValueError` when `a` is absent:
returns the first index of `a` in the list, or `none` on failure. -/
def pyIndex {α : Type} [DecidableEq α] : List α → α → Option Nat
  | [], _ => none
  | x :: xs, a => if x = a then some 0 else (pyIndex xs a).map (· + 1)

/-- A question record of the bank.  Each field holds the value of the
corresponding `q.get(key, default)` access in `logic.py`: `type` defaults to
`"single"`, `answer` to `""`, the list fields to `[]`, and `id`/`topic` keep
their possible absence as `Option`. -/
structure Question where
  id : Option String
  topic : Option String
  qtype : String
  question : String
  options : List String
  answer : String
  answers : List String
  match_left : List String
  match_right : List String
  pairs : List (Nat × Nat)
  explanation : String
deriving DecidableEq

/-- Function `select_questions` from `logic.py`: filter the bank by
`(q.get("topic") or "") == topic`, shuffle the pool (`poolShuffle` models
`random.shuffle(pool)`), take the first `min(n, len(pool))`, and (when
`shuffle_opts`) shuffle each picked question's options in place
(`optShuffle` models `random.shuffle(q["options"])`). -/
def select_questions (poolShuffle : List Question → List Question)
    (optShuffle : List String → List String)
    (topic : String) (n : Nat) (bank : List Question)
    (shuffle_opts : Bool := true) : List Question :=
  let pool := poolShuffle (bank.filter (fun q => pyOr q.topic "" == topic))
  let picked := pool.take (min n pool.length)
  if shuffle_opts then
    picked.map (fun q => { q with options := optShuffle q.options })
  else picked

/-- A base question record used to build concrete test inputs. -/
def q0 : Question :=
  { id := none, topic := none, qtype := "single", question := "",
    options := [], answer := "", answers := [], match_left := [],
    match_right := [], pairs := [], explanation := "" }

/-- C4: for every topic and requested count `n`, `select_questions` returns
exactly `min n pool_size` questions (never erring on a small pool), every
returned question's topic matches the filter, and — when the filtered pool has
pairwise distinct ids — the returned questions are pairwise distinct. -/
theorem select_questions_spec
    (poolShuffle : List Question → List Question)
    (optShuffle : List String → List String)
    (topic : String) (n : Nat) (bank : List Question) (b : Bool)
    (hperm : (poolShuffle (bank.filter (fun q => pyOr q.topic "" == topic))).Perm
             (bank.filter (fun q => pyOr q.topic "" == topic))) :
    (select_questions poolShuffle optShuffle topic n bank b).length
       = min n (bank.filter (fun q => pyOr q.topic "" == topic)).length
  ∧ (∀ q ∈ select_questions poolShuffle optShuffle topic n bank b,
       pyOr q.topic "" = topic)
  ∧ (((bank.filter (fun q => pyOr q.topic "" == topic)).map Question.id).Nodup →
     (select_questions poolShuffle optShuffle topic n bank b).Nodup) := by
  set pool := bank.filter (fun q => pyOr q.topic "" == topic) with hpool
  set shuffled := poolShuffle pool with hsh
  have hlen : shuffled.length = pool.length := hperm.length_eq
  have hpicked_len : (shuffled.take (min n shuffled.length)).length = min n pool.length := by
    rw [List.length_take, hlen]
    omega
  have hmem_pool : ∀ q ∈ shuffled.take (min n shuffled.length), q ∈ pool := by
    intro q hq
    exact hperm.mem_iff.mp (List.mem_of_mem_take hq)
  refine ⟨?_, ?_, ?_⟩
  · unfold select_questions
    cases b <;> simp [← hpool, ← hsh, hpicked_len, hlen]
  · intro q hq
    unfold select_questions at hq
    cases b with
    | false =>
      simp only [← hpool, ← hsh, if_neg] at hq
      have := hmem_pool q hq
      rw [hpool, List.mem_filter] at this
      exact of_decide_eq_true this.2
    | true =>
      simp only [← hpool, ← hsh, if_pos] at hq
      rw [List.mem_map] at hq
      obtain ⟨q', hq', rfl⟩ := hq
      have := hmem_pool q' hq'
      rw [hpool, List.mem_filter] at this
      exact of_decide_eq_true this.2
  · intro hnd
    have hnd_sh : (shuffled.map Question.id).Nodup :=
      ((hperm.map Question.id).nodup_iff).mpr hnd
    have hnd_take : ((shuffled.take (min n shuffled.length)).map Question.id).Nodup := by
      have : (shuffled.take (min n shuffled.length)).map Question.id
           = (shuffled.map Question.id).take (min n shuffled.length) := by
        rw [List.map_take]
      rw [this]
      exact hnd_sh.sublist (List.take_sublist _ _)
    unfold select_questions
    cases b with
    | false =>
      simp only [← hpool, ← hsh, if_neg]
      exact List.Nodup.of_map _ hnd_take
    | true =>
      simp only [← hpool, ← hsh, if_pos]
      have hids : ((shuffled.take (min n shuffled.length)).map
            (fun q => { q with options := optShuffle q.options })).map Question.id
          = (shuffled.take (min n shuffled.length)).map Question.id := by
        rw [List.map_map]
        rfl
      have : (((shuffled.take (min n shuffled.length)).map
            (fun q => { q with options := optShuffle q.options })).map Question.id).Nodup := by
        rw [hids]; exact hnd_take
      exact List.Nodup.of_map _ this

/-- Witness for C4 at a concrete bank: identity shuffles, a three-question
bank with two questions on topic `"t"`, request `n = 5`. -/
theorem select_questions_spec_witness :
    ((id ([{ q0 with id := some "a", topic := some "t" },
           { q0 with id := some "b", topic := some "u" },
           { q0 with id := some "c", topic := some "t" }].filter
            (fun q => pyOr q.topic "" == "t"))).Perm
     ([{ q0 with id := some "a", topic := some "t" },
       { q0 with id := some "b", topic := some "u" },
       { q0 with id := some "c", topic := some "t" }].filter
        (fun q => pyOr q.topic "" == "t")))
  ∧ ((select_questions id id "t" 5
       [{ q0 with id := some "a", topic := some "t" },
        { q0 with id := some "b", topic := some "u" },
        { q0 with id := some "c", topic := some "t" }] true).length
      = min 5 ([{ q0 with id := some "a", topic := some "t" },
                { q0 with id := some "b", topic := some "u" },
                { q0 with id := some "c", topic := some "t" }].filter
                 (fun q => pyOr q.topic "" == "t")).length
    ∧ (∀ q ∈ select_questions id id "t" 5
         [{ q0 with id := some "a", topic := some "t" },
          { q0 with id := some "b", topic := some "u" },
          { q0 with id := some "c", topic := some "t" }] true,
         pyOr q.topic "" = "t")
    ∧ ((([{ q0 with id := some "a", topic := some "t" },
          { q0 with id := some "b", topic := some "u" },
          { q0 with id := some "c", topic := some "t" }].filter
           (fun q => pyOr q.topic "" == "t")).map Question.id).Nodup →
       (select_questions id id "t" 5
         [{ q0 with id := some "a", topic := some "t" },
          { q0 with id := some "b", topic := some "u" },
          { q0 with id := some "c", topic := some "t" }] true).Nodup)) :=
  ⟨List.Perm.refl _, select_questions_spec id id "t" 5 _ true (List.Perm.refl _)⟩

/-- A transcript entry (`st["details"]` in `logic.py`).  Python stores sets as
sorted lists in the multi/match entries; the embedding stores the sets
themselves (`sorted(list(s))` is a canonical representation of the set `s`). -/
inductive Detail where
  | single (qid : Option String) (chosen correct : String) (ok : Bool)
  | multi (qid : Option String) (chosen correct : Finset String) (ok : Bool)
  | matching (qid : Option String) (chosenPairs correctPairs : Finset (Nat × Nat)) (ok : Bool)
deriving DecidableEq

/-- The `ok` field of a transcript entry. -/
def Detail.okOf : Detail → Bool
  | .single _ _ _ ok => ok
  | .multi _ _ _ ok => ok
  | .matching _ _ _ ok => ok

/-- The value of `context.user_data["await"]`: which question the session is
waiting on, with the per-question pending data (`("single", q)`,
`("multi", q, chosen)`, `("match", q, shown_right)`). -/
inductive Await where
  | single (q : Question)
  | multi (q : Question) (chosen : Finset String)
  | matching (q : Question) (shownRight : List String)
deriving DecidableEq

/-- A message sent back to the user, abstracted to what the claims need:
a rendered question, the unknown-type skip notice, an answer feedback line,
the match retry prompt, a multi-toggle re-render, or the final score line. -/
inductive Out where
  | question (idx : Nat) (q : Question)
  | skipNote
  | feedback (ok : Bool)
  | toggleRender
  | retryPrompt
  | finished (score total : Nat)
deriving DecidableEq

/-- A persistence call made by `finish_quiz` (`db.finish_session` /
`db.add_points`). -/
inductive PersistEvent where
  | finishSession (sessionId score : Nat) (details : List Detail)
  | addPoints (score : Nat) (topic : String)
deriving DecidableEq

/-- The `context.user_data["quiz"]` dictionary. -/
structure QuizState where
  topic : String
  questions : List Question
  current : Nat
  score : Nat
  sessionId : Nat
  details : List Detail
  deadline : Option Int
deriving DecidableEq

/-- The per-user handler context: `user_data["quiz"]`, `user_data["await"]`,
plus the append-only logs of persistence calls and outgoing messages. -/
structure UserData where
  quiz : Option QuizState
  awaiting : Option Await
  events : List PersistEvent
  outs : List Out
deriving DecidableEq

/-- The deadline test in `send_next_question`:
`if st.get("deadline"):` followed by
`left = (st["deadline"] - datetime.utcnow()).total_seconds(); if left <= 0`. -/
def expiredAt (deadline : Option Int) (now : Int) : Bool :=
  match deadline with
  | none => false
  | some d => d - now ≤ 0

/-- The question-type dispatch of `send_next_question`: the awaited state the
`if qtype == ...` chain installs for a known type, `none` for an unknown type
(the `else` skip branch).  `shuf` models `random.shuffle(right)` on the copy
of `match_right`. -/
def renderAwait (shuf : List String → List String) (q : Question) : Option Await :=
  if q.qtype = "single" then some (Await.single q)
  else if q.qtype = "multi" then some (Await.multi q ∅)
  else if q.qtype = "match" then some (Await.matching q (shuf q.match_right))
  else none

/-- Function `finish_quiz` from `logic.py`: if a session is active, call
`db.finish_session(session_id, score, details)` and
`db.add_points(user, score, topic)`, clear `user_data["quiz"]`, and send the
final `score/total` message.  (`user_data["await"]` is left as is, exactly as
in the source.) -/
def finish_quiz (ud : UserData) : UserData :=
  match ud.quiz with
  | none => ud
  | some st =>
    { ud with
      quiz := none,
      events := ud.events ++
        [PersistEvent.finishSession st.sessionId st.score st.details,
         PersistEvent.addPoints st.score st.topic],
      outs := ud.outs ++ [Out.finished st.score st.questions.length] }

/-- The measure that makes `send_next_question`'s unknown-type recursion
terminate: how many questions remain. -/
def quizMeasure (ud : UserData) : Nat :=
  match ud.quiz with
  | none => 0
  | some st => st.questions.length - st.current

/-- Function `send_next_question` from `logic.py`: no-op without a session; finish when
the cursor is past the end; finish when the deadline has passed; otherwise
render the current question and set `user_data["await"]`, or — for an unknown
question type — send the skip notice, advance the cursor, and recurse. -/
def send_next_question (shuf : List String → List String) (now : Int)
    (ud : UserData) : UserData :=
  match hq : ud.quiz with
  | none => ud
  | some st =>
    if hlt : st.current < st.questions.length then
      if expiredAt st.deadline now then finish_quiz ud
      else
        match renderAwait shuf (st.questions.get ⟨st.current, hlt⟩) with
        | some aw =>
          { ud with awaiting := some aw,
                    outs := ud.outs ++
                      [Out.question st.current (st.questions.get ⟨st.current, hlt⟩)] }
        | none =>
          send_next_question shuf now
            { ud with quiz := some { st with current := st.current + 1 },
                      outs := ud.outs ++ [Out.skipNote] }
    else finish_quiz ud
termination_by quizMeasure ud
decreasing_by simp [quizMeasure, hq]; omega

/-- Function `on_button` from `logic.py`, given the payload after the `::` separator of
the callback data.  Single: compare the payload with `q.get("answer","")`,
record the outcome, advance.  Multi: `"confirm"` compares the toggled set with
`set(q.get("answers",[]))`, records and advances; any other payload toggles
the option and re-renders.  A stale press while awaiting a match question, or
with no session / no awaited question, is a no-op. -/
def on_button (shuf : List String → List String) (now : Int) (payload : String)
    (ud : UserData) : UserData :=
  match ud.quiz, ud.awaiting with
  | some st, some aw =>
    match aw with
    | Await.single q =>
      let chosen := payload
      let correct := q.answer
      let ok := chosen == correct
      let st' := { st with
        score := if ok then st.score + 1 else st.score,
        details := st.details ++ [Detail.single q.id chosen correct ok],
        current := st.current + 1 }
      send_next_question shuf now
        { ud with quiz := some st', outs := ud.outs ++ [Out.feedback ok] }
    | Await.multi q chosen =>
      if payload = "confirm" then
        let correctSet := q.answers.toFinset
        let ok := chosen == correctSet
        let st' := { st with
          score := if ok then st.score + 1 else st.score,
          details := st.details ++ [Detail.multi q.id chosen correctSet ok],
          current := st.current + 1 }
        send_next_question shuf now
          { ud with quiz := some st', outs := ud.outs ++ [Out.feedback ok] }
      else
        let chosen' := if payload ∈ chosen then chosen.erase payload
                       else insert payload chosen
        { ud with awaiting := some (Await.multi q chosen'),
                  outs := ud.outs ++ [Out.toggleRender] }
    | Await.matching _ _ => ud
  | _, _ => ud

/-- Python `chr(ord('A') + i)`: the label of the `i`-th left entry of a match
question. -/
def letterChar (i : Nat) : Char := Char.ofNat (65 + i)

/-- Helper for `natDigits`: the same recursion, made structural on a fuel
bound so that it reduces by kernel computation (the fuel is irrelevant as
long as it exceeds the argument, see `natDigitsAux_congr`). -/
def natDigitsAux : Nat → Nat → List Char
  | 0, _ => []
  | fuel + 1, n =>
    if n < 10 then [Nat.digitChar n]
    else natDigitsAux fuel (n / 10) ++ [Nat.digitChar (n % 10)]

/-- Python `str(n)` for a natural number: its decimal digit string. -/
def natDigits (n : Nat) : List Char := natDigitsAux (n + 1) n

theorem natDigitsAux_congr :
    ∀ f g n, n < f → n < g → natDigitsAux f n = natDigitsAux g n := by
  intro f
  induction f with
  | zero => intro g n hf; omega
  | succ f ih =>
    intro g n hf hg
    cases g with
    | zero => omega
    | succ g =>
      show natDigitsAux (f + 1) n = natDigitsAux (g + 1) n
      unfold natDigitsAux
      by_cases h10 : n < 10
      · simp [h10]
      · have hdiv : n / 10 < n := Nat.div_lt_self (by omega) (by omega)
        simp only [h10, if_neg, not_false_eq_true]
        rw [ih g (n / 10) (by omega) (by omega)]

/-- The defining recursion of `natDigits`, mirroring how CPython renders
`str(n)` digit by digit. -/
theorem natDigits_eq (n : Nat) :
    natDigits n = if n < 10 then [Nat.digitChar n]
                  else natDigits (n / 10) ++ [Nat.digitChar (n % 10)] := by
  show natDigitsAux (n + 1) n = _
  unfold natDigitsAux
  by_cases h10 : n < 10
  · simp [h10]
  · have hdiv : n / 10 < n := Nat.div_lt_self (by omega) (by omega)
    simp only [h10, if_neg, not_false_eq_true]
    rw [natDigitsAux_congr n (n / 10 + 1) (n / 10) (by omega) (by omega)]
    rfl

/-- Python `text.split(",")`: split a character list at every comma, keeping
empty segments. -/
def splitComma : List Char → List (List Char)
  | [] => [[]]
  | c :: cs =>
    let r := splitComma cs
    if c = ',' then [] :: r
    else
      match r with
      | [] => [[c]]
      | t :: ts => (c :: t) :: ts

/-- Python `part.split("-", 1)` followed by unpacking into two variables:
the text before the first dash and the text after it, or `none` (a raised
`ValueError`) when the part contains no dash. -/
def splitDash1 : List Char → Option (List Char × List Char)
  | [] => none
  | c :: cs =>
    if c = '-' then some ([], cs)
    else (splitDash1 cs).map (fun p => (c :: p.1, p.2))

/-- The parsing loop of `on_text_for_match`: for every non-empty
comma-separated part, split it at the first dash, require the left piece to be
a known letter and the right piece a known number, and collect
`(letters.index(a), nums.index(b))`.  Any failure aborts the whole parse (the
raised `ValueError`). -/
def parseMatchTokens (letters nums : List (List Char)) :
    List (List Char) → Option (List (Nat × Nat))
  | [] => some []
  | part :: rest =>
    match splitDash1 part with
    | none => none
    | some (a, b) =>
      match pyIndex letters a, pyIndex nums b with
      | some li, some ri =>
        match parseMatchTokens letters nums rest with
        | some ps => some ((li, ri) :: ps)
        | none => none
      | _, _ => none

/-- The dict comprehension
`{i: q.get("match_right", []).index(shown_right[i]) for i in range(len(shown_right))}`:
the original index in `canonical` of every entry of `shown`, or `none` when
some entry is absent (a raised `ValueError`). -/
def indexAll (canonical : List String) : List String → Option (List Nat)
  | [] => some []
  | s :: rest =>
    match pyIndex canonical s, indexAll canonical rest with
    | some i, some is => some (i :: is)
    | _, _ => none

/-- The `try` body of `on_text_for_match` up to the comparison: normalize the
text (`.upper().replace(" ", "")`), split at commas dropping empty parts,
parse the letter/number tokens, translate each displayed right position back
to its original index in canonical `match_right`, and compare the translated
pair set with `set(tuple(x) for x in q.get("pairs", []))`.  Returns
`(user_pairs, correct_pairs, ok)`, or `none` when a `ValueError` was raised
(the `except` path). -/
def matchEval (q : Question) (shownRight : List String) (rawText : List Char) :
    Option (Finset (Nat × Nat) × Finset (Nat × Nat) × Bool) :=
  let letters := (List.range q.match_left.length).map (fun i => [letterChar i])
  let nums := (List.range shownRight.length).map (fun i => natDigits (i + 1))
  let text := (rawText.map Char.toUpper).filter (fun c => c ≠ ' ')
  let tokens := (splitComma text).filter (fun t => t ≠ [])
  match parseMatchTokens letters nums tokens with
  | none => none
  | some parsed =>
    match indexAll q.match_right shownRight with
    | none => none
    | some shownToOrig =>
      let correctPairs := q.pairs.toFinset
      let userPairs := (parsed.map (fun p => (p.1, shownToOrig.getD p.2 0))).toFinset
      some (userPairs, correctPairs, userPairs == correctPairs)

/-- Function `on_text_for_match` from `logic.py`: only acts when a session is active
and a match question is awaited.  A parse failure (`except`) sends the retry
prompt and changes nothing else; otherwise the outcome is recorded (score,
transcript entry, feedback message), the cursor advances, and the next
question is sent. -/
def on_text_for_match (shuf : List String → List String) (now : Int)
    (rawText : List Char) (ud : UserData) : UserData :=
  match ud.quiz, ud.awaiting with
  | some st, some (Await.matching q shownRight) =>
    match matchEval q shownRight rawText with
    | none => { ud with outs := ud.outs ++ [Out.retryPrompt] }
    | some (userPairs, correctPairs, ok) =>
      let st' := { st with
        score := if ok then st.score + 1 else st.score,
        details := st.details ++ [Detail.matching q.id userPairs correctPairs ok],
        current := st.current + 1 }
      send_next_question shuf now
        { ud with quiz := some st', outs := ud.outs ++ [Out.feedback ok] }
  | _, _ => ud


theorem send_next_question_none (shuf : List String → List String) (now : Int)
    (oaw : Option Await) (ev : List PersistEvent) (os : List Out) :
    send_next_question shuf now ⟨none, oaw, ev, os⟩ = ⟨none, oaw, ev, os⟩ := by
  rw [send_next_question]

theorem send_next_question_some (shuf : List String → List String) (now : Int)
    (st : QuizState) (oaw : Option Await) (ev : List PersistEvent) (os : List Out) :
    send_next_question shuf now ⟨some st, oaw, ev, os⟩ =
      if hlt : st.current < st.questions.length then
        if expiredAt st.deadline now then finish_quiz ⟨some st, oaw, ev, os⟩
        else
          match renderAwait shuf (st.questions.get ⟨st.current, hlt⟩) with
          | some aw =>
            ⟨some st, some aw, ev,
             os ++ [Out.question st.current (st.questions.get ⟨st.current, hlt⟩)]⟩
          | none =>
            send_next_question shuf now
              ⟨some { st with current := st.current + 1 }, oaw, ev,
               os ++ [Out.skipNote]⟩
      else finish_quiz ⟨some st, oaw, ev, os⟩ := by
  rw [send_next_question]

/-- What one `send_next_question` dispatch can do to an active session: either
the session continues (a question is now awaited, the cursor may only have
moved forward and is still in range, score/transcript/identity are untouched,
no persistence call was made), or the session finished (the two persistence
calls were appended exactly once).  Messages are only ever appended. -/
def NextOutcome (ud ud' : UserData) (st : QuizState) : Prop :=
  ((∃ st' aw, ud'.quiz = some st' ∧ ud'.awaiting = some aw ∧
      st'.topic = st.topic ∧ st'.questions = st.questions ∧
      st'.score = st.score ∧ st'.sessionId = st.sessionId ∧
      st'.details = st.details ∧ st'.deadline = st.deadline ∧
      st.current ≤ st'.current ∧ st'.current < st.questions.length ∧
      ud'.events = ud.events)
   ∨ (ud'.quiz = none ∧
      ud'.events = ud.events ++
        [PersistEvent.finishSession st.sessionId st.score st.details,
         PersistEvent.addPoints st.score st.topic]))
  ∧ (∃ l, ud'.outs = ud.outs ++ l)

theorem send_next_question_spec (shuf : List String → List String) (now : Int) :
    ∀ (ud : UserData) (st : QuizState), ud.quiz = some st →
      NextOutcome ud (send_next_question shuf now ud) st := by
  intro ud
  induction ud using send_next_question.induct shuf now with
  | case1 ud hnone =>
    intro st hq
    rw [hnone] at hq
    exact absurd hq (by simp)
  | case2 ud st hq hlt hexp =>
    intro st2 hq2
    obtain ⟨oq, oaw, ev, os⟩ := ud
    have hq' : oq = some st := hq
    subst hq'
    have hst : st = st2 := by injection hq2
    subst hst
    rw [send_next_question_some, dif_pos hlt, if_pos hexp]
    unfold finish_quiz
    exact ⟨Or.inr ⟨rfl, rfl⟩, ⟨[Out.finished st.score st.questions.length], rfl⟩⟩
  | case3 ud st hq hlt hexp aw hrender =>
    intro st2 hq2
    obtain ⟨oq, oaw, ev, os⟩ := ud
    have hq' : oq = some st := hq
    subst hq'
    have hst : st = st2 := by injection hq2
    subst hst
    rw [send_next_question_some, dif_pos hlt, if_neg hexp, hrender]
    exact ⟨Or.inl ⟨st, aw, rfl, rfl, rfl, rfl, rfl, rfl, rfl, rfl, le_refl _, hlt, rfl⟩,
    ⟨[Out.question st.current (st.questions.get ⟨st.current, hlt⟩)], rfl⟩⟩
  | case4 ud st hq hlt hexp hrender ih =>
    intro st2 hq2
    obtain ⟨oq, oaw, ev, os⟩ := ud
    have hq' : oq = some st := hq
    subst hq'
    have hst : st = st2 := by injection hq2
    subst hst
    rw [send_next_question_some, dif_pos hlt, if_neg hexp, hrender]
    have hrec := ih { st with current := st.current + 1 } rfl
    obtain ⟨hmain, l, houts⟩ := hrec
    constructor
    · rcases hmain with ⟨st', aw, h1, h2, h3, h4, h5, h6, h7, h8, h9, h10, h11⟩ | ⟨h1, h2⟩
      · exact Or.inl ⟨st', aw, h1, h2, h3, h4, h5, h6, h7, h8,
          le_trans (Nat.le_succ st.current) h9, h10, h11⟩
      · exact Or.inr ⟨h1, h2⟩
    · exact ⟨Out.skipNote :: l, by simpa using houts⟩
  | case5 ud st hq hlt =>
    intro st2 hq2
    obtain ⟨oq, oaw, ev, os⟩ := ud
    have hq' : oq = some st := hq
    subst hq'
    have hst : st = st2 := by injection hq2
    subst hst
    rw [send_next_question_some, dif_neg hlt]
    unfold finish_quiz
    exact ⟨Or.inr ⟨rfl, rfl⟩, ⟨[Out.finished st.score st.questions.length], rfl⟩⟩

/-- C7: once a session is finished and finalized, `user_data["quiz"]` is
`None`; every further submission (button or text) and every further render or
finalization attempt is a silent no-op: no state change, no further
persistence call, no crash.  `finish_quiz` itself appends the
`finish_session` and `add_points` calls exactly once and clears the session,
so the two persistence calls happen exactly once per session. -/
theorem submit_after_finished_noop (shuf : List String → List String)
    (now : Int) (payload : String) (rawText : List Char) (ud : UserData) :
    (ud.quiz = none →
      on_button shuf now payload ud = ud ∧
      on_text_for_match shuf now rawText ud = ud ∧
      send_next_question shuf now ud = ud ∧
      finish_quiz ud = ud)
  ∧ (∀ st, ud.quiz = some st →
      (finish_quiz ud).quiz = none ∧
      (finish_quiz ud).events = ud.events ++
        [PersistEvent.finishSession st.sessionId st.score st.details,
         PersistEvent.addPoints st.score st.topic] ∧
      on_button shuf now payload (finish_quiz ud) = finish_quiz ud ∧
      on_text_for_match shuf now rawText (finish_quiz ud) = finish_quiz ud ∧
      send_next_question shuf now (finish_quiz ud) = finish_quiz ud ∧
      finish_quiz (finish_quiz ud) = finish_quiz ud) := by
  obtain ⟨oq, oaw, ev, os⟩ := ud
  constructor
  · intro hq
    have hq' : oq = none := hq
    subst hq'
    refine ⟨?_, ?_, send_next_question_none shuf now oaw ev os, rfl⟩
    · cases oaw with
      | none => rfl
      | some aw => cases aw <;> rfl
    · cases oaw with
      | none => rfl
      | some aw => cases aw <;> rfl
  · intro st hq
    have hq' : oq = some st := hq
    subst hq'
    have hfin : finish_quiz ⟨some st, oaw, ev, os⟩ =
        ⟨none, oaw,
         ev ++ [PersistEvent.finishSession st.sessionId st.score st.details,
                PersistEvent.addPoints st.score st.topic],
         os ++ [Out.finished st.score st.questions.length]⟩ := rfl
    rw [hfin]
    refine ⟨rfl, rfl, ?_, ?_, send_next_question_none shuf now _ _ _, rfl⟩
    · cases oaw with
      | none => rfl
      | some aw => cases aw <;> rfl
    · cases oaw with
      | none => rfl
      | some aw => cases aw <;> rfl

/-- Witness for C7 at a concrete finished context and a concrete active
session. -/
theorem submit_after_finished_noop_witness :
    ((⟨none, none, [], []⟩ : UserData).quiz = none →
      on_button id 0 "x" ⟨none, none, [], []⟩ = ⟨none, none, [], []⟩ ∧
      on_text_for_match id 0 [] ⟨none, none, [], []⟩ = ⟨none, none, [], []⟩ ∧
      send_next_question id 0 ⟨none, none, [], []⟩ = ⟨none, none, [], []⟩ ∧
      finish_quiz ⟨none, none, [], []⟩ = ⟨none, none, [], []⟩)
  ∧ (∀ st, (⟨none, none, [], []⟩ : UserData).quiz = some st →
      (finish_quiz ⟨none, none, [], []⟩).quiz = none ∧
      (finish_quiz ⟨none, none, [], []⟩).events = [] ++
        [PersistEvent.finishSession st.sessionId st.score st.details,
         PersistEvent.addPoints st.score st.topic] ∧
      on_button id 0 "x" (finish_quiz ⟨none, none, [], []⟩) =
        finish_quiz ⟨none, none, [], []⟩ ∧
      on_text_for_match id 0 [] (finish_quiz ⟨none, none, [], []⟩) =
        finish_quiz ⟨none, none, [], []⟩ ∧
      send_next_question id 0 (finish_quiz ⟨none, none, [], []⟩) =
        finish_quiz ⟨none, none, [], []⟩ ∧
      finish_quiz (finish_quiz ⟨none, none, [], []⟩) =
        finish_quiz ⟨none, none, [], []⟩) :=
  submit_after_finished_noop id 0 "x" [] ⟨none, none, [], []⟩

/-- The session bounds of C8: `score <= current_index <= len(questions)`
(both over `Nat`, so `0 <=` holds by type). -/
def SessionInv (ud : UserData) : Prop :=
  ∀ st, ud.quiz = some st →
    st.score ≤ st.current ∧ st.current ≤ st.questions.length

theorem send_next_question_inv (shuf : List String → List String) (now : Int)
    (ud : UserData) (hsc : ∀ st, ud.quiz = some st → st.score ≤ st.current) :
    SessionInv (send_next_question shuf now ud) := by
  cases hq : ud.quiz with
  | none =>
    obtain ⟨oq, oaw, ev, os⟩ := ud
    have hq' : oq = none := hq
    subst hq'
    rw [send_next_question_none]
    intro st h
    exact absurd h (by simp)
  | some st =>
    have hspec := send_next_question_spec shuf now ud st hq
    obtain ⟨hmain, -⟩ := hspec
    intro st2 hq2
    rcases hmain with ⟨st', aw, h1, h2, h3, h4, h5, h6, h7, h8, h9, h10, h11⟩ | ⟨h1, h2⟩
    · rw [h1] at hq2
      injection hq2 with h
      subst h
      have := hsc st hq
      constructor
      · rw [h5]
        omega
      · rw [← h4] at h10
        omega
    · rw [h1] at hq2
      exact absurd hq2 (by simp)

theorem send_next_question_mono (shuf : List String → List String) (now : Int)
    (ud : UserData) (st : QuizState) (hq : ud.quiz = some st) :
    ∀ st', (send_next_question shuf now ud).quiz = some st' →
      st.current ≤ st'.current ∧ st'.questions = st.questions ∧
      st'.score = st.score ∧ st'.details = st.details := by
  intro st' h
  obtain ⟨hmain, -⟩ := send_next_question_spec shuf now ud st hq
  rcases hmain with ⟨st2, aw, h1, h2, h3, h4, h5, h6, h7, h8, h9, h10, h11⟩ | ⟨h1, h2⟩
  · rw [h1] at h
    injection h with h
    subst h
    exact ⟨h9, h4, h5, h7⟩
  · rw [h1] at h
    exact absurd h (by simp)

theorem on_button_none (shuf : List String → List String) (now : Int)
    (payload : String) (oaw : Option Await) (ev : List PersistEvent)
    (os : List Out) :
    on_button shuf now payload ⟨none, oaw, ev, os⟩ = ⟨none, oaw, ev, os⟩ := by
  cases oaw with
  | none => rfl
  | some aw => cases aw <;> rfl

theorem on_text_for_match_none (shuf : List String → List String) (now : Int)
    (rawText : List Char) (oaw : Option Await) (ev : List PersistEvent)
    (os : List Out) :
    on_text_for_match shuf now rawText ⟨none, oaw, ev, os⟩ = ⟨none, oaw, ev, os⟩ := by
  cases oaw with
  | none => rfl
  | some aw => cases aw <;> rfl

/-- C8: the bounds `0 <= score <= current_index <= len(questions)` are
preserved by every engine operation (button answers, match text answers,
question rendering with its unknown-type skip), and `current_index` never
decreases while the session survives (with `questions` unchanged). -/
theorem session_bounds_invariant (shuf : List String → List String) (now : Int)
    (payload : String) (rawText : List Char) (ud : UserData)
    (hinv : SessionInv ud) :
    SessionInv (on_button shuf now payload ud)
  ∧ SessionInv (on_text_for_match shuf now rawText ud)
  ∧ SessionInv (send_next_question shuf now ud)
  ∧ (∀ st st', ud.quiz = some st →
      (on_button shuf now payload ud).quiz = some st' → st.current ≤ st'.current ∧
      st'.questions = st.questions)
  ∧ (∀ st st', ud.quiz = some st →
      (on_text_for_match shuf now rawText ud).quiz = some st' →
      st.current ≤ st'.current ∧ st'.questions = st.questions)
  ∧ (∀ st st', ud.quiz = some st →
      (send_next_question shuf now ud).quiz = some st' →
      st.current ≤ st'.current ∧ st'.questions = st.questions) := by
  obtain ⟨oq, oaw, ev, os⟩ := ud
  refine ⟨?_, ?_, ?_, ?_, ?_, ?_⟩
  case refine_3 =>
    exact send_next_question_inv shuf now _ (fun st h => (hinv st h).1)
  case refine_6 =>
    intro st st' hq h
    have := send_next_question_mono shuf now _ st hq st' h
    exact ⟨this.1, this.2.1⟩
  -- on_button preserves SessionInv
  case refine_1 =>
    cases oq with
    | none =>
      rw [on_button_none]
      intro st h
      exact absurd h (by simp)
    | some st0 =>
      cases oaw with
      | none =>
        intro st h
        exact hinv st h
      | some aw =>
        have hsc0 : st0.score ≤ st0.current := (hinv st0 rfl).1
        cases aw with
        | single q =>
          exact send_next_question_inv shuf now _
            (fun st2 h => by
              injection h with h
              subst h
              simp only
              split <;> omega)
        | multi q chosen =>
          by_cases hpc : payload = "confirm"
          · simp only [on_button, hpc, if_pos]
            exact send_next_question_inv shuf now _
              (fun st2 h => by
                injection h with h
                subst h
                simp only
                split <;> omega)
          · simp only [on_button, hpc, if_neg, ite_false]
            intro st2 h
            injection h with h
            exact h ▸ hinv st0 rfl
        | matching q sr =>
          intro st2 h
          exact hinv st2 h
  -- on_text_for_match preserves SessionInv
  case refine_2 =>
    cases oq with
    | none =>
      rw [on_text_for_match_none]
      intro st h
      exact absurd h (by simp)
    | some st0 =>
      cases oaw with
      | none =>
        intro st h
        exact hinv st h
      | some aw =>
        have hsc0 : st0.score ≤ st0.current := (hinv st0 rfl).1
        cases aw with
        | single q =>
          intro st2 h
          exact hinv st2 h
        | multi q chosen =>
          intro st2 h
          exact hinv st2 h
        | matching q sr =>
          cases hme : matchEval q sr rawText with
          | none =>
            simp only [on_text_for_match, hme]
            intro st2 h
            injection h with h
            exact h ▸ hinv st0 rfl
          | some res =>
            obtain ⟨u, c, ok⟩ := res
            simp only [on_text_for_match, hme]
            exact send_next_question_inv shuf now _
              (fun st2 h => by
                injection h with h
                subst h
                simp only
                split <;> omega)
  -- on_button moves the cursor forward
  case refine_4 =>
    intro st st' hq h
    cases oq with
    | none => exact absurd hq (by simp)
    | some st0 =>
      have hst : st0 = st := by injection hq
      subst hst
      cases oaw with
      | none =>
        have : st' = st0 := by injection h.symm
        subst this
        exact ⟨le_refl _, rfl⟩
      | some aw =>
        cases aw with
        | single q =>
          have := send_next_question_mono shuf now _ _ rfl st' h
          refine ⟨le_trans (Nat.le_succ st0.current) this.1, this.2.1⟩
        | multi q chosen =>
          by_cases hpc : payload = "confirm"
          · simp only [on_button, hpc, if_pos] at h
            have := send_next_question_mono shuf now _ _ rfl st' h
            refine ⟨le_trans (Nat.le_succ st0.current) this.1, this.2.1⟩
          · simp only [on_button, hpc, if_neg, ite_false] at h
            have : st' = st0 := by injection h.symm
            subst this
            exact ⟨le_refl _, rfl⟩
        | matching q sr =>
          have : st' = st0 := by injection h.symm
          subst this
          exact ⟨le_refl _, rfl⟩
  -- on_text_for_match moves the cursor forward
  case refine_5 =>
    intro st st' hq h
    cases oq with
    | none => exact absurd hq (by simp)
    | some st0 =>
      have hst : st0 = st := by injection hq
      subst hst
      cases oaw with
      | none =>
        have : st' = st0 := by injection h.symm
        subst this
        exact ⟨le_refl _, rfl⟩
      | some aw =>
        cases aw with
        | single q =>
          have : st' = st0 := by injection h.symm
          subst this
          exact ⟨le_refl _, rfl⟩
        | multi q chosen =>
          have : st' = st0 := by injection h.symm
          subst this
          exact ⟨le_refl _, rfl⟩
        | matching q sr =>
          cases hme : matchEval q sr rawText with
          | none =>
            simp only [on_text_for_match, hme] at h
            have : st' = st0 := by injection h.symm
            subst this
            exact ⟨le_refl _, rfl⟩
          | some res =>
            obtain ⟨u, c, ok⟩ := res
            simp only [on_text_for_match, hme] at h
            have := send_next_question_mono shuf now _ _ rfl st' h
            refine ⟨le_trans (Nat.le_succ st0.current) this.1, this.2.1⟩

/-- Witness for C8 at a concrete active session awaiting a single question. -/
theorem session_bounds_invariant_witness :
    SessionInv ⟨some ⟨"t", [q0], 0, 0, 1, [], none⟩, some (Await.single q0), [], []⟩
  ∧ (SessionInv (on_button id 0 "x"
       ⟨some ⟨"t", [q0], 0, 0, 1, [], none⟩, some (Await.single q0), [], []⟩)
   ∧ SessionInv (on_text_for_match id 0 []
       ⟨some ⟨"t", [q0], 0, 0, 1, [], none⟩, some (Await.single q0), [], []⟩)
   ∧ SessionInv (send_next_question id 0
       ⟨some ⟨"t", [q0], 0, 0, 1, [], none⟩, some (Await.single q0), [], []⟩)
   ∧ (∀ st st',
       (⟨some ⟨"t", [q0], 0, 0, 1, [], none⟩, some (Await.single q0), [], []⟩ :
         UserData).quiz = some st →
       (on_button id 0 "x"
         ⟨some ⟨"t", [q0], 0, 0, 1, [], none⟩, some (Await.single q0), [], []⟩).quiz
           = some st' →
       st.current ≤ st'.current ∧ st'.questions = st.questions)
   ∧ (∀ st st',
       (⟨some ⟨"t", [q0], 0, 0, 1, [], none⟩, some (Await.single q0), [], []⟩ :
         UserData).quiz = some st →
       (on_text_for_match id 0 []
         ⟨some ⟨"t", [q0], 0, 0, 1, [], none⟩, some (Await.single q0), [], []⟩).quiz
           = some st' →
       st.current ≤ st'.current ∧ st'.questions = st.questions)
   ∧ (∀ st st',
       (⟨some ⟨"t", [q0], 0, 0, 1, [], none⟩, some (Await.single q0), [], []⟩ :
         UserData).quiz = some st →
       (send_next_question id 0
         ⟨some ⟨"t", [q0], 0, 0, 1, [], none⟩, some (Await.single q0), [], []⟩).quiz
           = some st' →
       st.current ≤ st'.current ∧ st'.questions = st.questions)) :=
  ⟨fun st h => by cases h; exact ⟨Nat.le_refl 0, Nat.zero_le 1⟩,
   session_bounds_invariant id 0 "x" []
     ⟨some ⟨"t", [q0], 0, 0, 1, [], none⟩, some (Await.single q0), [], []⟩
     (fun st h => by cases h; exact ⟨Nat.le_refl 0, Nat.zero_le 1⟩)⟩

/-- C6: a single-choice answer is scored correct exactly when the submitted
option string equals the canonical `answer` string (raw comparison: case
sensitive, no trimming); exactly one transcript entry is appended, carrying
that verdict, and the score grows by one exactly on a correct answer.  The
session then either continues at a later question or finishes with the
updated score and transcript persisted once. -/
theorem single_answer_eval (shuf : List String → List String) (now : Int)
    (payload : String) (ud : UserData) (st : QuizState) (q : Question)
    (hq : ud.quiz = some st) (ha : ud.awaiting = some (Await.single q)) :
    ((∃ st', (on_button shuf now payload ud).quiz = some st' ∧
        st'.score = (if payload == q.answer then st.score + 1 else st.score) ∧
        st'.details = st.details ++
          [Detail.single q.id payload q.answer (payload == q.answer)] ∧
        st.current + 1 ≤ st'.current)
     ∨ ((on_button shuf now payload ud).quiz = none ∧
        (on_button shuf now payload ud).events = ud.events ++
          [PersistEvent.finishSession st.sessionId
             (if payload == q.answer then st.score + 1 else st.score)
             (st.details ++
               [Detail.single q.id payload q.answer (payload == q.answer)]),
           PersistEvent.addPoints
             (if payload == q.answer then st.score + 1 else st.score) st.topic]))
  ∧ ((payload == q.answer) = true ↔ payload = q.answer)
  ∧ (payload ≠ q.answer → (payload == q.answer) = false) := by
  obtain ⟨oq, oaw, ev, os⟩ := ud
  have hq' : oq = some st := hq
  subst hq'
  have ha' : oaw = some (Await.single q) := ha
  subst ha'
  refine ⟨?_, beq_iff_eq, fun h => by simpa using h⟩
  have hspec := send_next_question_spec shuf now
    ⟨some { st with
        score := if payload == q.answer then st.score + 1 else st.score,
        details := st.details ++
          [Detail.single q.id payload q.answer (payload == q.answer)],
        current := st.current + 1 },
      some (Await.single q), ev, os ++ [Out.feedback (payload == q.answer)]⟩
    _ rfl
  obtain ⟨hmain, -⟩ := hspec
  rcases hmain with ⟨st', aw, h1, h2, h3, h4, h5, h6, h7, h8, h9, h10, h11⟩ | ⟨h1, h2⟩
  · exact Or.inl ⟨st', h1, h5, h7, h9⟩
  · exact Or.inr ⟨h1, h2⟩

/-- Witness for C6: submitting the canonical answer of a one-question
session. -/
theorem single_answer_eval_witness :
    ((∃ st', (on_button id 0 "A"
        ⟨some ⟨"t", [{ q0 with answer := "A", options := ["A", "B"] }], 0, 0, 1, [], none⟩,
         some (Await.single { q0 with answer := "A", options := ["A", "B"] }), [], []⟩).quiz
          = some st' ∧
        st'.score = (if ("A" : String) == "A" then 0 + 1 else 0) ∧
        st'.details = [] ++
          [Detail.single none "A" "A" (("A" : String) == "A")] ∧
        0 + 1 ≤ st'.current)
     ∨ ((on_button id 0 "A"
        ⟨some ⟨"t", [{ q0 with answer := "A", options := ["A", "B"] }], 0, 0, 1, [], none⟩,
         some (Await.single { q0 with answer := "A", options := ["A", "B"] }), [], []⟩).quiz
          = none ∧
        (on_button id 0 "A"
        ⟨some ⟨"t", [{ q0 with answer := "A", options := ["A", "B"] }], 0, 0, 1, [], none⟩,
         some (Await.single { q0 with answer := "A", options := ["A", "B"] }), [], []⟩).events
          = [] ++
          [PersistEvent.finishSession 1 (if ("A" : String) == "A" then 0 + 1 else 0)
             ([] ++ [Detail.single none "A" "A" (("A" : String) == "A")]),
           PersistEvent.addPoints (if ("A" : String) == "A" then 0 + 1 else 0) "t"]))
  ∧ ((("A" : String) == "A") = true ↔ ("A" : String) = "A")
  ∧ (("A" : String) ≠ "A" → (("A" : String) == "A") = false) :=
  single_answer_eval id 0 "A"
    ⟨some ⟨"t", [{ q0 with answer := "A", options := ["A", "B"] }], 0, 0, 1, [], none⟩,
     some (Await.single { q0 with answer := "A", options := ["A", "B"] }), [], []⟩
    ⟨"t", [{ q0 with answer := "A", options := ["A", "B"] }], 0, 0, 1, [], none⟩
    { q0 with answer := "A", options := ["A", "B"] } rfl rfl

/-- C5: confirming a multi-choice selection scores it correct exactly when
the toggled set equals the canonical `answers` set; every strict subset and
every strict superset is scored incorrect.  One transcript entry carrying the
verdict is appended and the score grows by one exactly on a correct answer. -/
theorem multi_answer_eval (shuf : List String → List String) (now : Int)
    (ud : UserData) (st : QuizState) (q : Question) (chosen : Finset String)
    (hq : ud.quiz = some st) (ha : ud.awaiting = some (Await.multi q chosen)) :
    ((∃ st', (on_button shuf now "confirm" ud).quiz = some st' ∧
        st'.score = (if chosen == q.answers.toFinset then st.score + 1 else st.score) ∧
        st'.details = st.details ++
          [Detail.multi q.id chosen q.answers.toFinset (chosen == q.answers.toFinset)] ∧
        st.current + 1 ≤ st'.current)
     ∨ ((on_button shuf now "confirm" ud).quiz = none ∧
        (on_button shuf now "confirm" ud).events = ud.events ++
          [PersistEvent.finishSession st.sessionId
             (if chosen == q.answers.toFinset then st.score + 1 else st.score)
             (st.details ++
               [Detail.multi q.id chosen q.answers.toFinset (chosen == q.answers.toFinset)]),
           PersistEvent.addPoints
             (if chosen == q.answers.toFinset then st.score + 1 else st.score) st.topic]))
  ∧ ((chosen == q.answers.toFinset) = true ↔ chosen = q.answers.toFinset)
  ∧ (chosen ⊂ q.answers.toFinset → (chosen == q.answers.toFinset) = false)
  ∧ (q.answers.toFinset ⊂ chosen → (chosen == q.answers.toFinset) = false) := by
  obtain ⟨oq, oaw, ev, os⟩ := ud
  have hq' : oq = some st := hq
  subst hq'
  have ha' : oaw = some (Await.multi q chosen) := ha
  subst ha'
  have hred : on_button shuf now "confirm" ⟨some st, some (Await.multi q chosen), ev, os⟩ =
      send_next_question shuf now
        ⟨some { st with
            score := if chosen == q.answers.toFinset then st.score + 1 else st.score,
            details := st.details ++
              [Detail.multi q.id chosen q.answers.toFinset (chosen == q.answers.toFinset)],
            current := st.current + 1 },
          some (Await.multi q chosen), ev,
          os ++ [Out.feedback (chosen == q.answers.toFinset)]⟩ := by
    simp only [on_button, if_pos]
  refine ⟨?_, beq_iff_eq, ?_, ?_⟩
  · rw [hred]
    have hspec := send_next_question_spec shuf now
      ⟨some { st with
          score := if chosen == q.answers.toFinset then st.score + 1 else st.score,
          details := st.details ++
            [Detail.multi q.id chosen q.answers.toFinset (chosen == q.answers.toFinset)],
          current := st.current + 1 },
        some (Await.multi q chosen), ev,
        os ++ [Out.feedback (chosen == q.answers.toFinset)]⟩ _ rfl
    obtain ⟨hmain, -⟩ := hspec
    rcases hmain with ⟨st', aw, h1, h2, h3, h4, h5, h6, h7, h8, h9, h10, h11⟩ | ⟨h1, h2⟩
    · exact Or.inl ⟨st', h1, h5, h7, h9⟩
    · exact Or.inr ⟨h1, h2⟩
  · intro hss
    exact beq_eq_false_iff_ne.mpr (Finset.ssubset_iff_subset_ne.mp hss).2
  · intro hss
    exact beq_eq_false_iff_ne.mpr (Finset.ssubset_iff_subset_ne.mp hss).2.symm

/-- Witness for C5: confirming the exact answer set `{"A", "B"}`. -/
theorem multi_answer_eval_witness :
    ((∃ st', (on_button id 0 "confirm"
        ⟨some ⟨"t", [{ q0 with qtype := "multi", answers := ["A", "B"] }], 0, 0, 1, [], none⟩,
         some (Await.multi { q0 with qtype := "multi", answers := ["A", "B"] }
           (insert "A" {"B"})), [], []⟩).quiz = some st' ∧
        st'.score = (if (insert "A" {"B"} : Finset String) ==
            ({ q0 with qtype := "multi", answers := ["A", "B"] } : Question).answers.toFinset
          then 0 + 1 else 0) ∧
        st'.details = [] ++
          [Detail.multi none (insert "A" {"B"})
            ({ q0 with qtype := "multi", answers := ["A", "B"] } : Question).answers.toFinset
            ((insert "A" {"B"} : Finset String) ==
              ({ q0 with qtype := "multi", answers := ["A", "B"] } : Question).answers.toFinset)] ∧
        0 + 1 ≤ st'.current)
     ∨ ((on_button id 0 "confirm"
        ⟨some ⟨"t", [{ q0 with qtype := "multi", answers := ["A", "B"] }], 0, 0, 1, [], none⟩,
         some (Await.multi { q0 with qtype := "multi", answers := ["A", "B"] }
           (insert "A" {"B"})), [], []⟩).quiz = none ∧
        (on_button id 0 "confirm"
        ⟨some ⟨"t", [{ q0 with qtype := "multi", answers := ["A", "B"] }], 0, 0, 1, [], none⟩,
         some (Await.multi { q0 with qtype := "multi", answers := ["A", "B"] }
           (insert "A" {"B"})), [], []⟩).events = [] ++
          [PersistEvent.finishSession 1
             (if (insert "A" {"B"} : Finset String) ==
                ({ q0 with qtype := "multi", answers := ["A", "B"] } : Question).answers.toFinset
              then 0 + 1 else 0)
             ([] ++ [Detail.multi none (insert "A" {"B"})
               ({ q0 with qtype := "multi", answers := ["A", "B"] } : Question).answers.toFinset
               ((insert "A" {"B"} : Finset String) ==
                 ({ q0 with qtype := "multi", answers := ["A", "B"] } : Question).answers.toFinset)]),
           PersistEvent.addPoints
             (if (insert "A" {"B"} : Finset String) ==
                ({ q0 with qtype := "multi", answers := ["A", "B"] } : Question).answers.toFinset
              then 0 + 1 else 0) "t"]))
  ∧ (((insert "A" {"B"} : Finset String) ==
       ({ q0 with qtype := "multi", answers := ["A", "B"] } : Question).answers.toFinset) = true ↔
      (insert "A" {"B"} : Finset String) =
       ({ q0 with qtype := "multi", answers := ["A", "B"] } : Question).answers.toFinset)
  ∧ ((insert "A" {"B"} : Finset String) ⊂
       ({ q0 with qtype := "multi", answers := ["A", "B"] } : Question).answers.toFinset →
      ((insert "A" {"B"} : Finset String) ==
        ({ q0 with qtype := "multi", answers := ["A", "B"] } : Question).answers.toFinset) = false)
  ∧ (({ q0 with qtype := "multi", answers := ["A", "B"] } : Question).answers.toFinset ⊂
       (insert "A" {"B"} : Finset String) →
      ((insert "A" {"B"} : Finset String) ==
        ({ q0 with qtype := "multi", answers := ["A", "B"] } : Question).answers.toFinset) = false) :=
  multi_answer_eval id 0
    ⟨some ⟨"t", [{ q0 with qtype := "multi", answers := ["A", "B"] }], 0, 0, 1, [], none⟩,
     some (Await.multi { q0 with qtype := "multi", answers := ["A", "B"] } (insert "A" {"B"})),
     [], []⟩
    ⟨"t", [{ q0 with qtype := "multi", answers := ["A", "B"] }], 0, 0, 1, [], none⟩
    { q0 with qtype := "multi", answers := ["A", "B"] } (insert "A" {"B"}) rfl rfl

theorem pyIndex_isSome_of_mem {α : Type} [DecidableEq α] {l : List α} {a : α}
    (h : a ∈ l) : ∃ i, pyIndex l a = some i := by
  induction l with
  | nil => cases h
  | cons x xs ih =>
    by_cases hx : x = a
    · exact ⟨0, by simp [pyIndex, hx]⟩
    · have hmem : a ∈ xs := by
        cases h with
        | head => exact absurd rfl hx
        | tail _ h => exact h
      obtain ⟨i, hi⟩ := ih hmem
      exact ⟨i + 1, by simp [pyIndex, hx, hi]⟩

theorem indexAll_isSome_of_mem {canonical : List String} {l : List String}
    (h : ∀ s ∈ l, s ∈ canonical) : ∃ is, indexAll canonical l = some is := by
  induction l with
  | nil => exact ⟨[], rfl⟩
  | cons x xs ih =>
    obtain ⟨i, hi⟩ := pyIndex_isSome_of_mem (h x (List.mem_cons_self x xs))
    obtain ⟨is, his⟩ := ih (fun s hs => h s (List.mem_cons_of_mem x hs))
    exact ⟨i :: is, by simp [indexAll, hi, his]⟩

/-- C3: a match-type submission whose parsing fails is a distinguished parse
error, not a wrong answer: the handler only sends the retry prompt — the
session state, the awaited question, the score, the transcript, and the
persistence log are all unchanged, so the user answers the same question
again. -/
theorem match_parse_error_noop (shuf : List String → List String) (now : Int)
    (rawText : List Char) (ud : UserData) (st : QuizState) (q : Question)
    (sr : List String) (hq : ud.quiz = some st)
    (ha : ud.awaiting = some (Await.matching q sr))
    (herr : matchEval q sr rawText = none) :
    on_text_for_match shuf now rawText ud =
      { ud with outs := ud.outs ++ [Out.retryPrompt] } ∧
    (on_text_for_match shuf now rawText ud).quiz = some st ∧
    (on_text_for_match shuf now rawText ud).awaiting = some (Await.matching q sr) ∧
    (on_text_for_match shuf now rawText ud).events = ud.events := by
  obtain ⟨oq, oaw, ev, os⟩ := ud
  have hq' : oq = some st := hq
  subst hq'
  have ha' : oaw = some (Await.matching q sr) := ha
  subst ha'
  have hred : on_text_for_match shuf now rawText
      ⟨some st, some (Await.matching q sr), ev, os⟩ =
      ⟨some st, some (Await.matching q sr), ev, os ++ [Out.retryPrompt]⟩ := by
    simp only [on_text_for_match, herr]
  exact ⟨hred, by rw [hred], by rw [hred], by rw [hred]⟩

/-- A concrete match question used by the C3 witness. -/
def qMatchC3 : Question :=
  { q0 with qtype := "match", match_left := ["x"], match_right := ["y"], pairs := [(0, 0)] }

/-- A concrete session awaiting `qMatchC3`, used by the C3 witness. -/
def udMatchC3 : UserData :=
  ⟨some ⟨"t", [qMatchC3], 0, 0, 1, [], none⟩, some (Await.matching qMatchC3 ["y"]), [], []⟩

/-- Witness for C3: the malformed token `A-Z` (`Z` is not a displayed
number). -/
theorem match_parse_error_noop_witness :
    (matchEval qMatchC3 ["y"] ("A-Z".toList) = none)
  ∧ (on_text_for_match id 0 ("A-Z".toList) udMatchC3 =
      { udMatchC3 with outs := [] ++ [Out.retryPrompt] } ∧
     (on_text_for_match id 0 ("A-Z".toList) udMatchC3).quiz =
      some ⟨"t", [qMatchC3], 0, 0, 1, [], none⟩ ∧
     (on_text_for_match id 0 ("A-Z".toList) udMatchC3).awaiting =
      some (Await.matching qMatchC3 ["y"]) ∧
     (on_text_for_match id 0 ("A-Z".toList) udMatchC3).events = udMatchC3.events) :=
  ⟨by decide,
   match_parse_error_noop id 0 ("A-Z".toList) udMatchC3 _ _ _ rfl rfl (by decide)⟩

/-- C10: a match submission with no non-empty comma-separated token is not a
parse error: it parses to the empty pair set and is evaluated normally —
correct exactly when the canonical `pairs` set is empty — appending a
transcript entry and advancing the cursor. -/
theorem match_empty_tokens_eval (shuf : List String → List String) (now : Int)
    (rawText : List Char) (ud : UserData) (st : QuizState) (q : Question)
    (sr : List String) (hq : ud.quiz = some st)
    (ha : ud.awaiting = some (Await.matching q sr))
    (hsub : ∀ s ∈ sr, s ∈ q.match_right)
    (hempty : (splitComma ((rawText.map Char.toUpper).filter (fun c => c ≠ ' '))).filter
        (fun t => t ≠ []) = []) :
    matchEval q sr rawText =
      some (∅, q.pairs.toFinset, ((∅ : Finset (Nat × Nat)) == q.pairs.toFinset))
  ∧ (((∅ : Finset (Nat × Nat)) == q.pairs.toFinset) = true ↔ q.pairs.toFinset = ∅)
  ∧ ((∃ st', (on_text_for_match shuf now rawText ud).quiz = some st' ∧
        st'.score = (if (∅ : Finset (Nat × Nat)) == q.pairs.toFinset
                     then st.score + 1 else st.score) ∧
        st'.details = st.details ++
          [Detail.matching q.id ∅ q.pairs.toFinset
            ((∅ : Finset (Nat × Nat)) == q.pairs.toFinset)] ∧
        st.current + 1 ≤ st'.current)
     ∨ ((on_text_for_match shuf now rawText ud).quiz = none ∧
        (on_text_for_match shuf now rawText ud).events = ud.events ++
          [PersistEvent.finishSession st.sessionId
             (if (∅ : Finset (Nat × Nat)) == q.pairs.toFinset
              then st.score + 1 else st.score)
             (st.details ++
               [Detail.matching q.id ∅ q.pairs.toFinset
                 ((∅ : Finset (Nat × Nat)) == q.pairs.toFinset)]),
           PersistEvent.addPoints
             (if (∅ : Finset (Nat × Nat)) == q.pairs.toFinset
              then st.score + 1 else st.score) st.topic])) := by
  obtain ⟨is, his⟩ := indexAll_isSome_of_mem hsub
  have heval : matchEval q sr rawText =
      some (∅, q.pairs.toFinset, ((∅ : Finset (Nat × Nat)) == q.pairs.toFinset)) := by
    unfold matchEval
    simp only [hempty, parseMatchTokens, his]
    simp
  refine ⟨heval, ?_, ?_⟩
  · rw [beq_iff_eq]
    exact eq_comm
  · obtain ⟨oq, oaw, ev, os⟩ := ud
    have hq' : oq = some st := hq
    subst hq'
    have ha' : oaw = some (Await.matching q sr) := ha
    subst ha'
    have hred : on_text_for_match shuf now rawText
        ⟨some st, some (Await.matching q sr), ev, os⟩ =
        send_next_question shuf now
          ⟨some { st with
              score := if (∅ : Finset (Nat × Nat)) == q.pairs.toFinset
                       then st.score + 1 else st.score,
              details := st.details ++
                [Detail.matching q.id ∅ q.pairs.toFinset
                  ((∅ : Finset (Nat × Nat)) == q.pairs.toFinset)],
              current := st.current + 1 },
            some (Await.matching q sr), ev,
            os ++ [Out.feedback ((∅ : Finset (Nat × Nat)) == q.pairs.toFinset)]⟩ := by
      simp only [on_text_for_match, heval]
    rw [hred]
    have hspec := send_next_question_spec shuf now
      ⟨some { st with
          score := if (∅ : Finset (Nat × Nat)) == q.pairs.toFinset
                   then st.score + 1 else st.score,
          details := st.details ++
            [Detail.matching q.id ∅ q.pairs.toFinset
              ((∅ : Finset (Nat × Nat)) == q.pairs.toFinset)],
          current := st.current + 1 },
        some (Await.matching q sr), ev,
        os ++ [Out.feedback ((∅ : Finset (Nat × Nat)) == q.pairs.toFinset)]⟩ _ rfl
    obtain ⟨hmain, -⟩ := hspec
    rcases hmain with ⟨st', aw, h1, h2, h3, h4, h5, h6, h7, h8, h9, h10, h11⟩ | ⟨h1, h2⟩
    · exact Or.inl ⟨st', h1, h5, h7, h9⟩
    · exact Or.inr ⟨h1, h2⟩

/-- A concrete match question with empty `pairs`, used by the C10 witness. -/
def qMatchC10 : Question :=
  { q0 with qtype := "match", match_left := ["x"], match_right := ["y"], pairs := [] }

/-- A concrete session awaiting `qMatchC10`, used by the C10 witness. -/
def udMatchC10 : UserData :=
  ⟨some ⟨"t", [qMatchC10], 0, 0, 1, [], none⟩, some (Await.matching qMatchC10 ["y"]), [], []⟩

/-- Witness for C10: submitting `", ,,"` (only commas and spaces). -/
theorem match_empty_tokens_eval_witness :
    (∀ s ∈ (["y"] : List String), s ∈ qMatchC10.match_right)
  ∧ ((splitComma (((", ,,".toList).map Char.toUpper).filter (fun c => c ≠ ' '))).filter
        (fun t => t ≠ []) = [])
  ∧ (matchEval qMatchC10 ["y"] (", ,,".toList) =
      some (∅, qMatchC10.pairs.toFinset, ((∅ : Finset (Nat × Nat)) == qMatchC10.pairs.toFinset))
  ∧ (((∅ : Finset (Nat × Nat)) == qMatchC10.pairs.toFinset) = true ↔
      qMatchC10.pairs.toFinset = ∅)
  ∧ ((∃ st', (on_text_for_match id 0 (", ,,".toList) udMatchC10).quiz = some st' ∧
        st'.score = (if (∅ : Finset (Nat × Nat)) == qMatchC10.pairs.toFinset
                     then 0 + 1 else 0) ∧
        st'.details = [] ++
          [Detail.matching none ∅ qMatchC10.pairs.toFinset
            ((∅ : Finset (Nat × Nat)) == qMatchC10.pairs.toFinset)] ∧
        0 + 1 ≤ st'.current)
     ∨ ((on_text_for_match id 0 (", ,,".toList) udMatchC10).quiz = none ∧
        (on_text_for_match id 0 (", ,,".toList) udMatchC10).events = [] ++
          [PersistEvent.finishSession 1
             (if (∅ : Finset (Nat × Nat)) == qMatchC10.pairs.toFinset
              then 0 + 1 else 0)
             ([] ++
               [Detail.matching none ∅ qMatchC10.pairs.toFinset
                 ((∅ : Finset (Nat × Nat)) == qMatchC10.pairs.toFinset)]),
           PersistEvent.addPoints
             (if (∅ : Finset (Nat × Nat)) == qMatchC10.pairs.toFinset
              then 0 + 1 else 0) "t"]))) :=
  ⟨by decide, by decide,
   match_empty_tokens_eval id 0 (", ,,".toList) udMatchC10 _ _ _ rfl rfl
     (by decide) (by decide)⟩

/-- C9: when the current question's type is none of `single`/`multi`/`match`,
`send_next_question` silently skips it: the skip notice is sent, the cursor
moves past the question, no transcript entry is appended and the score is
unchanged (so a finished session's transcript can be shorter than the
reported total), and when the following question has a known type and the
deadline has not passed it is rendered. -/
theorem unknown_type_skip (shuf : List String → List String) (now : Int)
    (ud : UserData) (st : QuizState) (hq : ud.quiz = some st)
    (hlt : st.current < st.questions.length)
    (hexp : expiredAt st.deadline now = false)
    (hunk : (st.questions.get ⟨st.current, hlt⟩).qtype ≠ "single" ∧
            (st.questions.get ⟨st.current, hlt⟩).qtype ≠ "multi" ∧
            (st.questions.get ⟨st.current, hlt⟩).qtype ≠ "match") :
    (∃ l, (send_next_question shuf now ud).outs = ud.outs ++ Out.skipNote :: l)
  ∧ (∀ st', (send_next_question shuf now ud).quiz = some st' →
      st'.details = st.details ∧ st'.score = st.score ∧
      st.current + 1 ≤ st'.current)
  ∧ ((send_next_question shuf now ud).quiz = none →
      (send_next_question shuf now ud).events = ud.events ++
        [PersistEvent.finishSession st.sessionId st.score st.details,
         PersistEvent.addPoints st.score st.topic])
  ∧ (∀ (hlt2 : st.current + 1 < st.questions.length) aw,
      renderAwait shuf (st.questions.get ⟨st.current + 1, hlt2⟩) = some aw →
      (send_next_question shuf now ud).quiz = some { st with current := st.current + 1 } ∧
      (send_next_question shuf now ud).awaiting = some aw ∧
      (send_next_question shuf now ud).outs = ud.outs ++
        [Out.skipNote,
         Out.question (st.current + 1) (st.questions.get ⟨st.current + 1, hlt2⟩)]) := by
  obtain ⟨oq, oaw, ev, os⟩ := ud
  have hq' : oq = some st := hq
  subst hq'
  have hrender : renderAwait shuf (st.questions.get ⟨st.current, hlt⟩) = none := by
    unfold renderAwait
    rw [if_neg hunk.1, if_neg hunk.2.1, if_neg hunk.2.2]
  have hstep : send_next_question shuf now ⟨some st, oaw, ev, os⟩ =
      send_next_question shuf now
        ⟨some { st with current := st.current + 1 }, oaw, ev, os ++ [Out.skipNote]⟩ := by
    rw [send_next_question_some, dif_pos hlt,
      if_neg (show ¬(expiredAt st.deadline now = true) by simp [hexp])]
    simp only [hrender]
  rw [hstep]
  have hspec := send_next_question_spec shuf now
    ⟨some { st with current := st.current + 1 }, oaw, ev, os ++ [Out.skipNote]⟩ _ rfl
  obtain ⟨hmain, l0, houts⟩ := hspec
  refine ⟨?_, ?_, ?_, ?_⟩
  · exact ⟨l0, by simpa using houts⟩
  · intro st' h
    have := send_next_question_mono shuf now
      ⟨some { st with current := st.current + 1 }, oaw, ev, os ++ [Out.skipNote]⟩ _ rfl st' h
    exact ⟨this.2.2.2, this.2.2.1, this.1⟩
  · intro h
    rcases hmain with ⟨st', aw, h1, h2, h3, h4, h5, h6, h7, h8, h9, h10, h11⟩ | ⟨h1, h2⟩
    · rw [h1] at h
      exact absurd h (by simp)
    · exact h2
  · intro hlt2 aw hrender2
    have hstep2 : send_next_question shuf now
        ⟨some { st with current := st.current + 1 }, oaw, ev, os ++ [Out.skipNote]⟩ =
        ⟨some { st with current := st.current + 1 }, some aw, ev,
         (os ++ [Out.skipNote]) ++
           [Out.question (st.current + 1) (st.questions.get ⟨st.current + 1, hlt2⟩)]⟩ := by
      rw [send_next_question_some, dif_pos hlt2,
        if_neg (show ¬(expiredAt st.deadline now = true) by simp [hexp])]
      simp only [hrender2]
    rw [hstep2]
    exact ⟨rfl, rfl, by simp⟩

/-- Witness for C9: a two-question session whose first question has the
unknown type `"weird"` and whose second is a single-choice question. -/
theorem unknown_type_skip_witness :
    (0 < ([{ q0 with qtype := "weird" }, q0] : List Question).length)
  ∧ (expiredAt none 0 = false)
  ∧ ((∃ l, (send_next_question id 0
        ⟨some ⟨"t", [{ q0 with qtype := "weird" }, q0], 0, 0, 1, [], none⟩,
         none, [], []⟩).outs = [] ++ Out.skipNote :: l)
   ∧ (∀ st', (send_next_question id 0
        ⟨some ⟨"t", [{ q0 with qtype := "weird" }, q0], 0, 0, 1, [], none⟩,
         none, [], []⟩).quiz = some st' →
       st'.details = [] ∧ st'.score = 0 ∧ 0 + 1 ≤ st'.current)
   ∧ ((send_next_question id 0
        ⟨some ⟨"t", [{ q0 with qtype := "weird" }, q0], 0, 0, 1, [], none⟩,
         none, [], []⟩).quiz = none →
       (send_next_question id 0
        ⟨some ⟨"t", [{ q0 with qtype := "weird" }, q0], 0, 0, 1, [], none⟩,
         none, [], []⟩).events = [] ++
         [PersistEvent.finishSession 1 0 [], PersistEvent.addPoints 0 "t"])
   ∧ (∀ (hlt2 : 0 + 1 <
        ((⟨"t", [{ q0 with qtype := "weird" }, q0], 0, 0, 1, [], none⟩ :
          QuizState)).questions.length) aw,
      renderAwait id (((⟨"t", [{ q0 with qtype := "weird" }, q0], 0, 0, 1, [], none⟩ :
          QuizState)).questions.get ⟨0 + 1, hlt2⟩) = some aw →
      (send_next_question id 0
        ⟨some ⟨"t", [{ q0 with qtype := "weird" }, q0], 0, 0, 1, [], none⟩,
         none, [], []⟩).quiz =
        some { (⟨"t", [{ q0 with qtype := "weird" }, q0], 0, 0, 1, [], none⟩ :
          QuizState) with current := 0 + 1 } ∧
      (send_next_question id 0
        ⟨some ⟨"t", [{ q0 with qtype := "weird" }, q0], 0, 0, 1, [], none⟩,
         none, [], []⟩).awaiting = some aw ∧
      (send_next_question id 0
        ⟨some ⟨"t", [{ q0 with qtype := "weird" }, q0], 0, 0, 1, [], none⟩,
         none, [], []⟩).outs = [] ++
        [Out.skipNote,
         Out.question (0 + 1)
           (((⟨"t", [{ q0 with qtype := "weird" }, q0], 0, 0, 1, [], none⟩ :
             QuizState)).questions.get ⟨0 + 1, hlt2⟩)])) :=
  ⟨by decide, rfl,
   unknown_type_skip id 0
     ⟨some ⟨"t", [{ q0 with qtype := "weird" }, q0], 0, 0, 1, [], none⟩, none, [], []⟩
     ⟨"t", [{ q0 with qtype := "weird" }, q0], 0, 0, 1, [], none⟩ rfl (by decide) rfl
     (by refine ⟨?_, ?_, ?_⟩ <;> decide)⟩

theorem send_next_question_expired (shuf : List String → List String) (now : Int)
    (ud : UserData) (st : QuizState) (hq : ud.quiz = some st)
    (hexp : expiredAt st.deadline now = true) :
    send_next_question shuf now ud = finish_quiz ud := by
  obtain ⟨oq, oaw, ev, os⟩ := ud
  have hq' : oq = some st := hq
  subst hq'
  rw [send_next_question_some]
  by_cases hlt : st.current < st.questions.length
  · rw [dif_pos hlt, if_pos hexp]
  · rw [dif_neg hlt]

/-- The question used by the C1 counterexample. -/
def qC1 : Question := { q0 with answer := "a", options := ["a", "b"] }

/-- A session on `qC1` whose deadline (second `0`) is already in the past at
`now = 60`, still awaiting the answer to question 1. -/
def udC1 : UserData :=
  ⟨some ⟨"t", [qC1], 0, 0, 7, [], some 0⟩, some (Await.single qC1), [], []⟩

/-- Counterexample to C1: with the deadline expired (`now = 60 > 0`), the
engine still evaluates the submitted answer `"a"` before finishing — the
persisted score is `1` (not `0`) and the transcript carries the in-flight
answer's entry (not the empty transcript the claim predicts). -/
theorem deadline_unscored_counterexample :
    expiredAt (some 0) 60 = true
  ∧ (on_button id 60 "a" udC1).quiz = none
  ∧ (on_button id 60 "a" udC1).events =
      [PersistEvent.finishSession 7 1 [Detail.single none "a" "a" true],
       PersistEvent.addPoints 1 "t"]
  ∧ (on_button id 60 "a" udC1).outs = [Out.feedback true, Out.finished 1 1]
  ∧ ¬((on_button id 60 "a" udC1).events =
      [PersistEvent.finishSession 7 0 [], PersistEvent.addPoints 0 "t"]) := by
  have hred : on_button id 60 "a" udC1 =
      finish_quiz
        ⟨some ⟨"t", [qC1], 1, 1, 7, [Detail.single none "a" "a" true], some 0⟩,
         some (Await.single qC1), [], [Out.feedback true]⟩ := by
    have := send_next_question_expired id 60
      ⟨some ⟨"t", [qC1], 1, 1, 7, [Detail.single none "a" "a" true], some 0⟩,
       some (Await.single qC1), [], [Out.feedback true]⟩
      ⟨"t", [qC1], 1, 1, 7, [Detail.single none "a" "a" true], some 0⟩ rfl (by decide)
    exact this
  rw [hred]
  exact ⟨rfl, rfl, rfl, rfl, by decide⟩

/-- C1 as amended: a submission arriving after the deadline is still
evaluated — the transcript entry for the in-flight answer is appended and a
correct in-flight answer still increments the score — and the engine then
transitions to FINISHED, persisting that updated score and transcript, with
the reported total equal to `len(questions)`.  This holds for single button
presses, multi confirms, and match text answers alike. -/
theorem deadline_eval_then_finish (shuf : List String → List String) (now : Int)
    (ud : UserData) (st : QuizState) (d : Int) (hq : ud.quiz = some st)
    (hd : st.deadline = some d) (hexp : d - now ≤ 0) :
    (∀ q payload, ud.awaiting = some (Await.single q) →
      (on_button shuf now payload ud).quiz = none ∧
      (on_button shuf now payload ud).events = ud.events ++
        [PersistEvent.finishSession st.sessionId
           (if payload == q.answer then st.score + 1 else st.score)
           (st.details ++ [Detail.single q.id payload q.answer (payload == q.answer)]),
         PersistEvent.addPoints
           (if payload == q.answer then st.score + 1 else st.score) st.topic] ∧
      (on_button shuf now payload ud).outs = ud.outs ++
        [Out.feedback (payload == q.answer),
         Out.finished (if payload == q.answer then st.score + 1 else st.score)
           st.questions.length])
  ∧ (∀ q chosen, ud.awaiting = some (Await.multi q chosen) →
      (on_button shuf now "confirm" ud).quiz = none ∧
      (on_button shuf now "confirm" ud).events = ud.events ++
        [PersistEvent.finishSession st.sessionId
           (if chosen == q.answers.toFinset then st.score + 1 else st.score)
           (st.details ++
             [Detail.multi q.id chosen q.answers.toFinset (chosen == q.answers.toFinset)]),
         PersistEvent.addPoints
           (if chosen == q.answers.toFinset then st.score + 1 else st.score) st.topic])
  ∧ (∀ q sr rawText u c ok, ud.awaiting = some (Await.matching q sr) →
      matchEval q sr rawText = some (u, c, ok) →
      (on_text_for_match shuf now rawText ud).quiz = none ∧
      (on_text_for_match shuf now rawText ud).events = ud.events ++
        [PersistEvent.finishSession st.sessionId
           (if ok then st.score + 1 else st.score)
           (st.details ++ [Detail.matching q.id u c ok]),
         PersistEvent.addPoints (if ok then st.score + 1 else st.score) st.topic]) := by
  obtain ⟨oq, oaw, ev, os⟩ := ud
  have hq' : oq = some st := hq
  subst hq'
  have hexpb : ∀ st2 : QuizState, st2.deadline = some d →
      expiredAt st2.deadline now = true := by
    intro st2 h2
    rw [h2]
    simpa [expiredAt] using hexp
  refine ⟨?_, ?_, ?_⟩
  · intro q payload ha
    have ha' : oaw = some (Await.single q) := ha
    subst ha'
    have hred : on_button shuf now payload ⟨some st, some (Await.single q), ev, os⟩ =
        finish_quiz
          ⟨some { st with
              score := if payload == q.answer then st.score + 1 else st.score,
              details := st.details ++
                [Detail.single q.id payload q.answer (payload == q.answer)],
              current := st.current + 1 },
            some (Await.single q), ev, os ++ [Out.feedback (payload == q.answer)]⟩ :=
      send_next_question_expired shuf now _ _ rfl (hexpb _ hd)
    rw [hred]
    exact ⟨rfl, rfl, by simp [finish_quiz]⟩
  · intro q chosen ha
    have ha' : oaw = some (Await.multi q chosen) := ha
    subst ha'
    have hred : on_button shuf now "confirm" ⟨some st, some (Await.multi q chosen), ev, os⟩ =
        finish_quiz
          ⟨some { st with
              score := if chosen == q.answers.toFinset then st.score + 1 else st.score,
              details := st.details ++
                [Detail.multi q.id chosen q.answers.toFinset (chosen == q.answers.toFinset)],
              current := st.current + 1 },
            some (Await.multi q chosen), ev,
            os ++ [Out.feedback (chosen == q.answers.toFinset)]⟩ := by
      have hconf : on_button shuf now "confirm"
          ⟨some st, some (Await.multi q chosen), ev, os⟩ =
          send_next_question shuf now
            ⟨some { st with
                score := if chosen == q.answers.toFinset then st.score + 1 else st.score,
                details := st.details ++
                  [Detail.multi q.id chosen q.answers.toFinset
                    (chosen == q.answers.toFinset)],
                current := st.current + 1 },
              some (Await.multi q chosen), ev,
              os ++ [Out.feedback (chosen == q.answers.toFinset)]⟩ := by
        simp only [on_button, if_pos]
      rw [hconf]
      exact send_next_question_expired shuf now _ _ rfl (hexpb _ hd)
    rw [hred]
    exact ⟨rfl, rfl⟩
  · intro q sr rawText u c ok ha hme
    have ha' : oaw = some (Await.matching q sr) := ha
    subst ha'
    have hred : on_text_for_match shuf now rawText
        ⟨some st, some (Await.matching q sr), ev, os⟩ =
        finish_quiz
          ⟨some { st with
              score := if ok then st.score + 1 else st.score,
              details := st.details ++ [Detail.matching q.id u c ok],
              current := st.current + 1 },
            some (Await.matching q sr), ev, os ++ [Out.feedback ok]⟩ := by
      have htxt : on_text_for_match shuf now rawText
          ⟨some st, some (Await.matching q sr), ev, os⟩ =
          send_next_question shuf now
            ⟨some { st with
                score := if ok then st.score + 1 else st.score,
                details := st.details ++ [Detail.matching q.id u c ok],
                current := st.current + 1 },
              some (Await.matching q sr), ev, os ++ [Out.feedback ok]⟩ := by
        simp only [on_text_for_match, hme]
      rw [htxt]
      exact send_next_question_expired shuf now _ _ rfl (hexpb _ hd)
    rw [hred]
    exact ⟨rfl, rfl⟩

/-- Witness for the amended C1: the concrete expired session `udC1` with the
correct single answer `"a"`. -/
theorem deadline_eval_then_finish_witness :
    ((0 : Int) - 60 ≤ 0)
  ∧ ((∀ q payload, udC1.awaiting = some (Await.single q) →
      (on_button id 60 payload udC1).quiz = none ∧
      (on_button id 60 payload udC1).events = [] ++
        [PersistEvent.finishSession 7
           (if payload == q.answer then 0 + 1 else 0)
           ([] ++ [Detail.single q.id payload q.answer (payload == q.answer)]),
         PersistEvent.addPoints
           (if payload == q.answer then 0 + 1 else 0) "t"] ∧
      (on_button id 60 payload udC1).outs = [] ++
        [Out.feedback (payload == q.answer),
         Out.finished (if payload == q.answer then 0 + 1 else 0) [qC1].length])
   ∧ (∀ q chosen, udC1.awaiting = some (Await.multi q chosen) →
      (on_button id 60 "confirm" udC1).quiz = none ∧
      (on_button id 60 "confirm" udC1).events = [] ++
        [PersistEvent.finishSession 7
           (if chosen == q.answers.toFinset then 0 + 1 else 0)
           ([] ++
             [Detail.multi q.id chosen q.answers.toFinset (chosen == q.answers.toFinset)]),
         PersistEvent.addPoints
           (if chosen == q.answers.toFinset then 0 + 1 else 0) "t"])
   ∧ (∀ q sr rawText u c ok, udC1.awaiting = some (Await.matching q sr) →
      matchEval q sr rawText = some (u, c, ok) →
      (on_text_for_match id 60 rawText udC1).quiz = none ∧
      (on_text_for_match id 60 rawText udC1).events = [] ++
        [PersistEvent.finishSession 7
           (if ok then 0 + 1 else 0)
           ([] ++ [Detail.matching q.id u c ok]),
         PersistEvent.addPoints (if ok then 0 + 1 else 0) "t"])) :=
  ⟨by decide,
   deadline_eval_then_finish id 60 udC1 ⟨"t", [qC1], 0, 0, 7, [], some 0⟩ 0
     rfl rfl (by decide)⟩

theorem letterChar_toNat (i : Nat) (h : i < 26) : (letterChar i).toNat = 65 + i := by
  interval_cases i <;> decide

theorem letterChar_inj (i j : Nat) (hi : i < 26) (hj : j < 26)
    (h : letterChar i = letterChar j) : i = j := by
  have := congrArg Char.toNat h
  rw [letterChar_toNat i hi, letterChar_toNat j hj] at this
  omega

theorem letterChar_props (i : Nat) (h : i < 26) :
    Char.toUpper (letterChar i) = letterChar i ∧ letterChar i ≠ ',' ∧
    letterChar i ≠ '-' ∧ letterChar i ≠ ' ' := by
  interval_cases i <;> exact ⟨by decide, by decide, by decide, by decide⟩

theorem digitChar_toNat (k : Nat) (h : k < 10) :
    (Nat.digitChar k).toNat = 48 + k := by
  interval_cases k <;> decide

theorem digitChar_props (k : Nat) (h : k < 10) :
    Char.toUpper (Nat.digitChar k) = Nat.digitChar k ∧ Nat.digitChar k ≠ ',' ∧
    Nat.digitChar k ≠ '-' ∧ Nat.digitChar k ≠ ' ' := by
  interval_cases k <;> exact ⟨by decide, by decide, by decide, by decide⟩

theorem natDigits_mem (n : Nat) :
    ∀ c ∈ natDigits n, ∃ k, k < 10 ∧ c = Nat.digitChar k := by
  induction n using Nat.strong_induction_on with
  | _ n ih =>
    intro c hc
    rw [natDigits_eq] at hc
    by_cases h10 : n < 10
    · rw [if_pos h10] at hc
      simp only [List.mem_singleton] at hc
      exact ⟨n, h10, hc⟩
    · rw [if_neg h10] at hc
      rcases List.mem_append.mp hc with h | h
      · exact ih (n / 10) (Nat.div_lt_self (by omega) (by omega)) c h
      · simp only [List.mem_singleton] at h
        exact ⟨n % 10, Nat.mod_lt n (by omega), h⟩

theorem natDigits_props (n : Nat) :
    ∀ c ∈ natDigits n, Char.toUpper c = c ∧ c ≠ ',' ∧ c ≠ '-' ∧ c ≠ ' ' := by
  intro c hc
  obtain ⟨k, hk, rfl⟩ := natDigits_mem n c hc
  exact digitChar_props k hk

/-- Reading a decimal digit string back as a number, inverse to `natDigits`. -/
def valDigits (l : List Char) : Nat :=
  l.foldl (fun a c => 10 * a + (c.toNat - 48)) 0

theorem valDigits_natDigits (n : Nat) : valDigits (natDigits n) = n := by
  induction n using Nat.strong_induction_on with
  | _ n ih =>
    rw [natDigits_eq]
    by_cases h10 : n < 10
    · rw [if_pos h10]
      show 10 * 0 + ((Nat.digitChar n).toNat - 48) = n
      rw [digitChar_toNat n h10]
      omega
    · rw [if_neg h10]
      show List.foldl _ 0 (natDigits (n / 10) ++ [Nat.digitChar (n % 10)]) = n
      rw [List.foldl_append]
      have hval := ih (n / 10) (Nat.div_lt_self (by omega) (by omega))
      show 10 * valDigits (natDigits (n / 10)) + ((Nat.digitChar (n % 10)).toNat - 48) = n
      rw [hval, digitChar_toNat (n % 10) (Nat.mod_lt n (by omega))]
      omega

theorem natDigits_inj {m n : Nat} (h : natDigits m = natDigits n) : m = n := by
  have hm := valDigits_natDigits m
  rw [h, valDigits_natDigits] at hm
  omega

theorem pyIndex_of_nodup {α : Type} [DecidableEq α] :
    ∀ (l : List α), l.Nodup → ∀ (i : Nat) (hi : i < l.length),
      pyIndex l (l.get ⟨i, hi⟩) = some i := by
  intro l
  induction l with
  | nil => intro _ i hi; simp at hi
  | cons x xs ih =>
    intro hnd i hi
    obtain ⟨hx, hxs⟩ := List.nodup_cons.mp hnd
    cases i with
    | zero => simp [pyIndex]
    | succ i =>
      have hget : (x :: xs).get ⟨i + 1, hi⟩ = xs.get ⟨i, by simpa using hi⟩ := rfl
      rw [hget]
      have hmem : xs.get ⟨i, by simpa using hi⟩ ∈ xs :=
        List.get_mem xs i (by simpa using hi)
      have hxne : ¬(x = xs.get ⟨i, by simpa using hi⟩) := by
        intro hcontra
        exact hx (hcontra ▸ hmem)
      simp only [pyIndex, if_neg hxne]
      rw [ih hxs i (by simpa using hi)]
      rfl

theorem pyIndex_spec {α : Type} [DecidableEq α] :
    ∀ (l : List α) (a : α) (i : Nat), pyIndex l a = some i →
      ∃ hi : i < l.length, l.get ⟨i, hi⟩ = a := by
  intro l
  induction l with
  | nil => intro a i h; simp [pyIndex] at h
  | cons x xs ih =>
    intro a i h
    by_cases hx : x = a
    · simp only [pyIndex, if_pos hx] at h
      injection h with h
      subst h
      exact ⟨by simp, hx⟩
    · simp only [pyIndex, if_neg hx] at h
      cases hpy : pyIndex xs a with
      | none => rw [hpy] at h; simp at h
      | some j =>
        rw [hpy] at h
        simp only [Option.map_some'] at h
        injection h with h
        subst h
        obtain ⟨hj, hget⟩ := ih a j hpy
        exact ⟨by simp; omega, hget⟩

theorem indexAll_length {c : List String} :
    ∀ {l : List String} {f : List Nat}, indexAll c l = some f → f.length = l.length := by
  intro l
  induction l with
  | nil => intro f h; simp [indexAll] at h; simp [← h]
  | cons x xs ih =>
    intro f h
    simp only [indexAll] at h
    cases hpy : pyIndex c x with
    | none => rw [hpy] at h; simp at h
    | some i =>
      rw [hpy] at h
      cases hrec : indexAll c xs with
      | none => rw [hrec] at h; simp at h
      | some is =>
        rw [hrec] at h
        injection h with h
        subst h
        simp [ih hrec]

theorem indexAll_getD {c : List String} :
    ∀ {l : List String} {f : List Nat}, indexAll c l = some f →
      ∀ (i : Nat) (hi : i < l.length),
        pyIndex c (l.get ⟨i, hi⟩) = some (f.getD i 0) := by
  intro l
  induction l with
  | nil => intro f _ i hi; simp at hi
  | cons x xs ih =>
    intro f h i hi
    simp only [indexAll] at h
    cases hpy : pyIndex c x with
    | none => rw [hpy] at h; simp at h
    | some j =>
      rw [hpy] at h
      cases hrec : indexAll c xs with
      | none => rw [hrec] at h; simp at h
      | some is =>
        rw [hrec] at h
        injection h with h
        subst h
        cases i with
        | zero => simpa using hpy
        | succ i =>
          have : (x :: xs).get ⟨i + 1, hi⟩ = xs.get ⟨i, by simpa using hi⟩ := rfl
          rw [this]
          exact ih hrec i (by simpa using hi)

/-- Python `",".join(tokens)`: the message text built from a token list. -/
def joinComma : List (List Char) → List Char
  | [] => []
  | [t] => t
  | t :: ts => t ++ ',' :: joinComma ts

theorem joinComma_mem :
    ∀ (ts : List (List Char)) (c : Char), c ∈ joinComma ts →
      c = ',' ∨ ∃ t ∈ ts, c ∈ t := by
  intro ts
  induction ts with
  | nil => intro c hc; cases hc
  | cons t ts ih =>
    intro c hc
    cases ts with
    | nil =>
      exact Or.inr ⟨t, List.mem_cons_self t [], hc⟩
    | cons t2 ts2 =>
      have hj : joinComma (t :: t2 :: ts2) = t ++ ',' :: joinComma (t2 :: ts2) := rfl
      rw [hj] at hc
      rcases List.mem_append.mp hc with h | h
      · exact Or.inr ⟨t, List.mem_cons_self t _, h⟩
      · rcases List.mem_cons.mp h with h | h
        · exact Or.inl h
        · rcases ih c h with h | ⟨t', ht', hct'⟩
          · exact Or.inl h
          · exact Or.inr ⟨t', List.mem_cons_of_mem t ht', hct'⟩

theorem splitComma_ne_nil : ∀ l : List Char, splitComma l ≠ [] := by
  intro l
  induction l with
  | nil => simp [splitComma]
  | cons c cs ih =>
    simp only [splitComma]
    by_cases hc : c = ','
    · simp [hc]
    · simp only [hc, if_neg, ite_false]
      cases h : splitComma cs with
      | nil => simp
      | cons t ts => simp

theorem splitComma_append (t l : List Char) (hnc : ∀ c ∈ t, c ≠ ',') :
    splitComma (t ++ l) = (t ++ (splitComma l).headI) :: (splitComma l).tail := by
  induction t with
  | nil =>
    simp only [List.nil_append, List.headI]
    cases h : splitComma l with
    | nil => exact absurd h (splitComma_ne_nil l)
    | cons x xs => simp
  | cons c t' ih =>
    have hc : c ≠ ',' := hnc c (List.mem_cons_self c t')
    have ih' := ih (fun x hx => hnc x (List.mem_cons_of_mem c hx))
    simp only [List.cons_append, splitComma, hc, if_neg, ite_false, List.append_eq]
    rw [ih']

theorem splitComma_joinComma :
    ∀ (ts : List (List Char)), (∀ t ∈ ts, t ≠ []) →
      (∀ t ∈ ts, ∀ c ∈ t, c ≠ ',') →
      (splitComma (joinComma ts)).filter (fun t => t ≠ []) = ts := by
  intro ts
  induction ts with
  | nil => intro _ _; rfl
  | cons t ts ih =>
    intro hne hnc
    cases ts with
    | nil =>
      have hj : joinComma [t] = t := rfl
      rw [hj]
      have : splitComma t = splitComma (t ++ []) := by simp
      rw [this, splitComma_append t [] (hnc t (List.mem_cons_self t []))]
      simp [splitComma, List.filter, hne t (List.mem_cons_self t [])]
    | cons t2 ts2 =>
      have hj : joinComma (t :: t2 :: ts2) = t ++ ',' :: joinComma (t2 :: ts2) := rfl
      rw [hj, splitComma_append t _ (hnc t (List.mem_cons_self t _))]
      have hsplit : splitComma (',' :: joinComma (t2 :: ts2)) =
          [] :: splitComma (joinComma (t2 :: ts2)) := by
        simp [splitComma]
      rw [hsplit]
      simp only [List.headI, List.tail, List.append_nil]
      have hrest := ih (fun x hx => hne x (List.mem_cons_of_mem t hx))
        (fun x hx => hnc x (List.mem_cons_of_mem t hx))
      have hT : t ≠ [] := hne t (List.mem_cons_self t _)
      simp only [List.filter_cons, hT]
      simp [hT]
      simpa using hrest

theorem norm_fixed (l : List Char)
    (h : ∀ c ∈ l, Char.toUpper c = c ∧ c ≠ ' ') :
    (l.map Char.toUpper).filter (fun c => c ≠ ' ') = l := by
  induction l with
  | nil => rfl
  | cons c cs ih =>
    obtain ⟨hup, hsp⟩ := h c (List.mem_cons_self c cs)
    simp only [List.map_cons, hup, List.filter_cons]
    simp [hsp]
    simpa using ih (fun x hx => h x (List.mem_cons_of_mem c hx))

theorem splitDash1_letter (a : Char) (ds : List Char) (h : a ≠ '-') :
    splitDash1 (a :: '-' :: ds) = some ([a], ds) := by
  simp [splitDash1, h]

theorem pyIndex_letters (L i : Nat) (hL : L ≤ 26) (hi : i < L) :
    pyIndex ((List.range L).map (fun j => [letterChar j])) [letterChar i] = some i := by
  have hnd : ((List.range L).map (fun j => [letterChar j])).Nodup := by
    refine List.Nodup.map_on ?_ (List.nodup_range _)
    intro a ha b hb hfab
    have hab : letterChar a = letterChar b := by
      simpa using hfab
    exact letterChar_inj a b (by have := List.mem_range.mp ha; omega)
      (by have := List.mem_range.mp hb; omega) hab
  have hi' : i < ((List.range L).map (fun j => [letterChar j])).length := by simpa
  have hget : ((List.range L).map (fun j => [letterChar j])).get ⟨i, hi'⟩ =
      [letterChar i] := by
    rw [List.get_eq_getElem]
    simp
  have := pyIndex_of_nodup _ hnd i hi'
  rwa [hget] at this

theorem pyIndex_nums (N p : Nat) (hp : p < N) :
    pyIndex ((List.range N).map (fun j => natDigits (j + 1))) (natDigits (p + 1)) =
      some p := by
  have hnd : ((List.range N).map (fun j => natDigits (j + 1))).Nodup := by
    refine List.Nodup.map_on ?_ (List.nodup_range _)
    intro a _ b _ hfab
    have := natDigits_inj hfab
    omega
  have hp' : p < ((List.range N).map (fun j => natDigits (j + 1))).length := by simpa
  have hget : ((List.range N).map (fun j => natDigits (j + 1))).get ⟨p, hp'⟩ =
      natDigits (p + 1) := by
    rw [List.get_eq_getElem]
    simp
  have := pyIndex_of_nodup _ hnd p hp'
  rwa [hget] at this

/-- The displayed position of a canonical right entry: where the entry's text
sits in the shuffled `shown_right` list (first occurrence). -/
def dispPos (shownRight : List String) (entry : String) : Nat :=
  (pyIndex shownRight entry).getD 0

/-- The tokens the C2 claim describes: each canonical pair `(l, r)` rendered
as the letter for `l`, a dash, and the 1-based displayed position of the
canonical right entry `r`. -/
def canonicalTokens (q : Question) (shownRight : List String) : List (List Char) :=
  q.pairs.map (fun p =>
    letterChar p.1 :: '-' ::
      natDigits (dispPos shownRight (q.match_right.getD p.2 "") + 1))

/-- The full message text of those tokens, comma separated. -/
def canonicalMatchText (q : Question) (shownRight : List String) : List Char :=
  joinComma (canonicalTokens q shownRight)

theorem matchEval_eq (q : Question) (sr : List String) (rawText : List Char) :
    matchEval q sr rawText =
      match parseMatchTokens
          ((List.range q.match_left.length).map (fun i => [letterChar i]))
          ((List.range sr.length).map (fun i => natDigits (i + 1)))
          ((splitComma ((rawText.map Char.toUpper).filter (fun c => c ≠ ' '))).filter
            (fun t => t ≠ [])) with
      | none => none
      | some parsed =>
        match indexAll q.match_right sr with
        | none => none
        | some shownToOrig =>
          some ((parsed.map (fun p => (p.1, shownToOrig.getD p.2 0))).toFinset,
                q.pairs.toFinset,
                (parsed.map (fun p => (p.1, shownToOrig.getD p.2 0))).toFinset ==
                  q.pairs.toFinset) := rfl

/-- C2 as amended: for a match question whose `match_right` entries are
pairwise distinct and whose canonical `pairs` reference valid indices (with
at most 26 left entries, so that every left index has a letter), submitting
the tokens that express each canonical pair through the displayed position of
its right entry makes the evaluator translate every displayed position back
to the original index of canonical `match_right` and return
`is_correct = true`. -/
theorem match_round_trip (q : Question) (shownRight : List String)
    (hperm : shownRight.Perm q.match_right)
    (hnd : q.match_right.Nodup)
    (hlen : q.match_left.length ≤ 26)
    (hpairs : ∀ p ∈ q.pairs, p.1 < q.match_left.length ∧ p.2 < q.match_right.length) :
    matchEval q shownRight (canonicalMatchText q shownRight) =
      some (q.pairs.toFinset, q.pairs.toFinset, true) := by
  have hcs : ∀ t ∈ canonicalTokens q shownRight, ∀ c ∈ t,
      Char.toUpper c = c ∧ c ≠ ' ' ∧ c ≠ ',' := by
    intro t ht c hc
    obtain ⟨p, hp, rfl⟩ := List.mem_map.mp ht
    have hp26 : p.1 < 26 := lt_of_lt_of_le (hpairs p hp).1 hlen
    rcases List.mem_cons.mp hc with rfl | hc
    · obtain ⟨h1, h2, h3, h4⟩ := letterChar_props p.1 hp26
      exact ⟨h1, h4, h2⟩
    · rcases List.mem_cons.mp hc with rfl | hc
      · exact ⟨by decide, by decide, by decide⟩
      · obtain ⟨h1, h2, h3, h4⟩ := natDigits_props _ c hc
        exact ⟨h1, h4, h2⟩
  have hne_tok : ∀ t ∈ canonicalTokens q shownRight, t ≠ [] := by
    intro t ht
    obtain ⟨p, hp, rfl⟩ := List.mem_map.mp ht
    simp
  have htext_chars : ∀ c ∈ canonicalMatchText q shownRight,
      Char.toUpper c = c ∧ c ≠ ' ' := by
    intro c hc
    rcases joinComma_mem _ c hc with rfl | ⟨t, ht, hct⟩
    · exact ⟨by decide, by decide⟩
    · exact ⟨(hcs t ht c hct).1, (hcs t ht c hct).2.1⟩
  have htxt := norm_fixed _ htext_chars
  have htok := splitComma_joinComma (canonicalTokens q shownRight) hne_tok
    (fun t ht c hc => (hcs t ht c hc).2.2)
  have hdp : ∀ r, r < q.match_right.length →
      ∃ hlt : dispPos shownRight (q.match_right.getD r "") < shownRight.length,
        shownRight.get ⟨dispPos shownRight (q.match_right.getD r ""), hlt⟩ =
          q.match_right.getD r "" := by
    intro r hr
    have hmem : q.match_right.getD r "" ∈ q.match_right := by
      rw [List.getD_eq_getElem _ _ hr]
      exact List.getElem_mem hr
    have hmem' : q.match_right.getD r "" ∈ shownRight := hperm.mem_iff.mpr hmem
    obtain ⟨i, hi⟩ := pyIndex_isSome_of_mem hmem'
    obtain ⟨hilt, hget⟩ := pyIndex_spec _ _ _ hi
    have hdpi : dispPos shownRight (q.match_right.getD r "") = i := by
      unfold dispPos
      rw [hi]
      rfl
    rw [hdpi]
    exact ⟨hilt, hget⟩
  have hparse : parseMatchTokens
      ((List.range q.match_left.length).map (fun i => [letterChar i]))
      ((List.range shownRight.length).map (fun i => natDigits (i + 1)))
      (canonicalTokens q shownRight) =
      some (q.pairs.map
        (fun p => (p.1, dispPos shownRight (q.match_right.getD p.2 "")))) := by
    unfold canonicalTokens
    have main : ∀ ps : List (Nat × Nat),
        (∀ p ∈ ps, p.1 < q.match_left.length ∧ p.2 < q.match_right.length) →
        parseMatchTokens
          ((List.range q.match_left.length).map (fun i => [letterChar i]))
          ((List.range shownRight.length).map (fun i => natDigits (i + 1)))
          (ps.map (fun p =>
            letterChar p.1 :: '-' ::
              natDigits (dispPos shownRight (q.match_right.getD p.2 "") + 1))) =
        some (ps.map
          (fun p => (p.1, dispPos shownRight (q.match_right.getD p.2 "")))) := by
      intro ps
      induction ps with
      | nil => intro _; rfl
      | cons p ps ih =>
        intro hps
        obtain ⟨hp1, hp2⟩ := hps p (List.mem_cons_self p ps)
        have hp26 : p.1 < 26 := lt_of_lt_of_le hp1 hlen
        obtain ⟨hplt, -⟩ := hdp p.2 hp2
        simp only [List.map_cons, parseMatchTokens,
          splitDash1_letter _ _ (letterChar_props p.1 hp26).2.2.1,
          pyIndex_letters _ _ hlen hp1, pyIndex_nums _ _ hplt,
          ih (fun x hx => hps x (List.mem_cons_of_mem p hx))]
    exact main q.pairs hpairs
  have hsub : ∀ s ∈ shownRight, s ∈ q.match_right := fun s hs => hperm.mem_iff.mp hs
  obtain ⟨f, hf⟩ := indexAll_isSome_of_mem hsub
  have htrans : ∀ p ∈ q.pairs,
      f.getD (dispPos shownRight (q.match_right.getD p.2 "")) 0 = p.2 := by
    intro p hp
    have hr := (hpairs p hp).2
    obtain ⟨hplt, hget⟩ := hdp p.2 hr
    have h1 := indexAll_getD hf _ hplt
    rw [hget] at h1
    have h2 : pyIndex q.match_right (q.match_right.getD p.2 "") = some p.2 := by
      have hpn := pyIndex_of_nodup _ hnd p.2 hr
      rw [List.getD_eq_getElem _ _ hr]
      rw [List.get_eq_getElem] at hpn
      exact hpn
    have h3 := h2.symm.trans h1
    injection h3 with h3
    exact h3.symm
  have huser : (q.pairs.map
      (fun p => (p.1, dispPos shownRight (q.match_right.getD p.2 "")))).map
      (fun pr => (pr.1, f.getD pr.2 0)) = q.pairs := by
    rw [List.map_map]
    have hpt : ∀ p ∈ q.pairs,
        ((fun pr : Nat × Nat => (pr.1, f.getD pr.2 0)) ∘
         (fun p : Nat × Nat =>
           (p.1, dispPos shownRight (q.match_right.getD p.2 "")))) p = p := by
      intro p hp
      show (p.1, f.getD (dispPos shownRight (q.match_right.getD p.2 "")) 0) = p
      rw [htrans p hp]
    calc q.pairs.map ((fun pr : Nat × Nat => (pr.1, f.getD pr.2 0)) ∘
          (fun p : Nat × Nat =>
            (p.1, dispPos shownRight (q.match_right.getD p.2 ""))))
        = q.pairs.map id := List.map_congr_left hpt
      _ = q.pairs := List.map_id _
  have hTOK : (splitComma (((canonicalMatchText q shownRight).map Char.toUpper).filter
      (fun c => c ≠ ' '))).filter (fun t => t ≠ []) = canonicalTokens q shownRight := by
    rw [htxt]
    unfold canonicalMatchText
    exact htok
  rw [matchEval_eq, hTOK, hparse]
  simp only []
  rw [hf]
  simp only []
  rw [huser]
  simp

/-- A concrete match question for the C2 witness. -/
def qC2w : Question :=
  { q0 with qtype := "match", match_left := ["L1", "L2"],
            match_right := ["r1", "r2"], pairs := [(0, 0), (1, 1)] }

/-- Witness for the amended C2: `match_right` shuffled to `["r2", "r1"]`, the
canonical pairs submitted through displayed positions (`A-2,B-1`). -/
theorem match_round_trip_witness :
    (["r2", "r1"] : List String).Perm qC2w.match_right
  ∧ qC2w.match_right.Nodup
  ∧ qC2w.match_left.length ≤ 26
  ∧ (∀ p ∈ qC2w.pairs, p.1 < qC2w.match_left.length ∧ p.2 < qC2w.match_right.length)
  ∧ matchEval qC2w ["r2", "r1"] (canonicalMatchText qC2w ["r2", "r1"]) =
      some (qC2w.pairs.toFinset, qC2w.pairs.toFinset, true) :=
  ⟨by decide, by decide, by decide, by decide,
   match_round_trip qC2w ["r2", "r1"] (by decide) (by decide) (by decide) (by decide)⟩

/-- A match question whose `match_right` has duplicate entries, refuting C2 as
stated. -/
def qC2d : Question :=
  { q0 with qtype := "match", match_left := ["L"],
            match_right := ["x", "x"], pairs := [(0, 1)] }

/-- Counterexample to C2 as stated: with duplicate `match_right` entries
(`["x", "x"]`, canonical pair `(0, 1)`, identity display order), the token
for the canonical pair — the letter `A` with the displayed position of entry
1 — yields `is_correct = false` whichever of the two displayed positions of
`"x"` is used (`A-2` or `A-1`), because `list.index` maps both displayed
positions back to original index 0. -/
theorem match_round_trip_counterexample :
    (["x", "x"] : List String).Perm qC2d.match_right
  ∧ matchEval qC2d ["x", "x"] ("A-2".toList) =
      some ({(0, 0)}, {(0, 1)}, false)
  ∧ matchEval qC2d ["x", "x"] ("A-1".toList) =
      some ({(0, 0)}, {(0, 1)}, false)
  ∧ ({(0, 0)} : Finset (Nat × Nat)) ≠ {(0, 1)} :=
  ⟨by decide, by decide, by decide, by decide⟩
